import Mathlib

/-!
Verification of the TIES481 hospital-simulation repository.

This file gives a shallow embedding of the repository code and proves or
refutes the specification claims against it.

Part 1 embeds the statistics layer:
  src/analysis.py        calculate_point_estimates, calculate_confidence_intervals
  src/monitoring.py      Monitor.calculate_blocking_probability
  src/Assignment_4.py    calculate_serial_correlation

Part 2 embeds the discrete-event simulation core:
  src/simulation.py      HospitalSimulation (preparation, operation, recovery
                         processes, patient generator) over simpy, with time
                         as a rational number and the random sources made
                         explicit input streams.

Floating-point values are modelled by the type EF: either NaN or an exact
rational. The code paths exercised by the theorems only divide zero by zero,
where IEEE arithmetic also yields NaN, and NaN propagates through addition,
subtraction, multiplication and division exactly as in IEEE arithmetic.
Square roots and Student-t quantiles are irrational in general, so the
embeddings are parameterised over those two functions wherever their values
matter; closed statements instantiate them with rational stand-ins that are
exact on the arguments actually evaluated.
-/

set_option allowUnsafeReducibility true in
attribute [semireducible] Rat.add Rat.sub Rat.mul Rat.inv Rat.div

namespace HospitalSim

/-- A float-like value: NaN or an exact rational. -/
inductive EF where
  | nan : EF
  | val : ℚ → EF
deriving DecidableEq

/-- Addition with NaN propagation. -/
def EF.add : EF → EF → EF
  | .val a, .val b => .val (a + b)
  | _, _ => .nan

/-- Subtraction with NaN propagation. -/
def EF.sub : EF → EF → EF
  | .val a, .val b => .val (a - b)
  | _, _ => .nan

/-- Multiplication with NaN propagation. -/
def EF.mul : EF → EF → EF
  | .val a, .val b => .val (a * b)
  | _, _ => .nan

/-- Division with NaN propagation; zero divided by zero is NaN, as in IEEE.
The theorems below never divide a nonzero value by zero. -/
def EF.div : EF → EF → EF
  | .val a, .val b => if b = 0 then .nan else .val (a / b)
  | _, _ => .nan

instance : Add EF := ⟨EF.add⟩
instance : Sub EF := ⟨EF.sub⟩
instance : Mul EF := ⟨EF.mul⟩
instance : Div EF := ⟨EF.div⟩

/-- Sample mean of a rational data vector, as computed by numpy:
np.mean of an empty vector is NaN. Embeds np.mean in src/analysis.py. -/
def npMean (data : List ℚ) : EF :=
  if data = [] then .nan else .val (data.sum / data.length)

/-- Sum of squared deviations from the mean. -/
def sqDevSum (data : List ℚ) : ℚ :=
  ((data.map fun x => (x - data.sum / data.length) ^ 2).sum)

/-- Sample standard deviation with the unbiased denominator, as computed by
np.std(data, ddof=1): NaN when fewer than two elements (numpy divides zero
by zero degrees of freedom), otherwise the square root of the unbiased
variance. The square root is supplied as a parameter sqrtF since its exact
value is irrational in general. Embeds np.std(data, ddof=1) in
src/analysis.py. -/
def npStd (sqrtF : ℚ → ℚ) (data : List ℚ) : EF :=
  if data.length ≤ 1 then .nan
  else .val (sqrtF (sqDevSum data / (data.length - 1)))

/-- Embeds calculate_point_estimates of src/analysis.py. -/
def calculate_point_estimates (sqrtF : ℚ → ℚ) (data : List ℚ) : EF × EF :=
  (npMean data, npStd sqrtF data)

/-- Embeds calculate_confidence_intervals of src/analysis.py. The function
body has no guard and no raise statement of any kind, so the embedding is
total and returns a pair unconditionally, wrapped in Except to make the
absence of an error path part of the statement. tppf embeds
scipy.stats.t.ppf, taking the tail probability and the degrees of freedom. -/
def calculate_confidence_intervals (sqrtF : ℚ → ℚ) (tppf : ℚ → ℤ → EF)
    (confidence : ℚ) (data : List ℚ) : Except String (EF × EF) :=
  let mean := (calculate_point_estimates sqrtF data).1
  let std := (calculate_point_estimates sqrtF data).2
  let margin := tppf ((1 + confidence) / 2) ((data.length : ℤ) - 1)
    * (std / .val (sqrtF (data.length : ℚ)))
  .ok (mean - margin, mean + margin)

/-- Modelled from the scipy documentation: stats.t.ppf(q, df) is NaN for
df ≤ 0 (zero or negative degrees of freedom). For df ≥ 1 the quantile is
irrational and no theorem in this file depends on its value: every statement
about positive degrees of freedom instead quantifies over an arbitrary tppf
function, so the second branch here is returned as NaN and never relied on. -/
def tppfModel (_q : ℚ) (df : ℤ) : EF :=
  if df ≤ 0 then .nan else .nan

/-- Rational stand-in for the float square root: exact on perfect squares,
which are the only arguments the closed statements below evaluate. -/
def sqrtModel (q : ℚ) : ℚ := Rat.sqrt q

/-- Embeds Monitor.calculate_blocking_probability of src/monitoring.py:
the sum of the recorded theater blocked times divided by the current clock
value, guarded so that a clock at zero yields 0 instead of a division by
zero. -/
def calculate_blocking_probability (theater_blocked_times : List ℚ)
    (env_now : ℚ) : ℚ :=
  if env_now > 0 then theater_blocked_times.sum / env_now else 0

/-- The message of the ValueError raised by calculate_serial_correlation. -/
def lagErrMsg : String := "Data length must be greater than the lag."

/-- The message of the ValueError raised by scipy.stats.pearsonr when an
input has fewer than two elements. -/
def shortErrMsg : String := "x and y must have length at least 2."

/-- The message of the ValueError raised by scipy.stats.pearsonr when the
inputs have different lengths. -/
def lenMismatchMsg : String := "x and y must have the same length."

/-- Python slice data[:-k] on a list: for k = 0 this is data[:0] = [],
since -0 == 0 in Python; for k ≥ 1 it drops the last k elements. -/
def pySliceDropLast (data : List ℚ) (k : ℕ) : List ℚ :=
  if k = 0 then [] else data.take (data.length - k)

/-- The numeric result of a Pearson correlation, kept in exact form:
NaN when either input is constant (scipy returns NaN with a warning there),
otherwise the triple (Sxy, Sxx, Syy) of centered sums whose induced value is
Sxy divided by the square root of Sxx * Syy. The square root is irrational
in general, so the exact triple is recorded instead of a rounded value. -/
inductive PearsonVal where
  | nan : PearsonVal
  | corr : ℚ → ℚ → ℚ → PearsonVal
deriving DecidableEq

/-- Centered cross sum of two equal-length vectors. -/
def centeredSum (x y : List ℚ) : ℚ :=
  ((x.zip y).map fun p =>
    (p.1 - x.sum / x.length) * (p.2 - y.sum / y.length)).sum

/-- Modelled from the scipy documentation and source of stats.pearsonr:
raises when the lengths differ or are below two, returns NaN for a constant
input, and otherwise the correlation in exact centered-sum form. -/
def pearsonrModel (x y : List ℚ) : Except String PearsonVal :=
  if x.length ≠ y.length then .error lenMismatchMsg
  else if x.length < 2 then .error shortErrMsg
  else if centeredSum x x = 0 ∨ centeredSum y y = 0 then .ok .nan
  else .ok (.corr (centeredSum x y) (centeredSum x x) (centeredSum y y))

/-- Embeds calculate_serial_correlation of src/Assignment_4.py, parameterised
over the Pearson kernel pr standing for scipy.stats.pearsonr. The guard
raises ValueError when len(data) <= lag; otherwise the kernel is applied to
original = data[:-lag] and lagged = data[lag:]. -/
def calculate_serial_correlation (pr : List ℚ → List ℚ → Except String PearsonVal)
    (data : List ℚ) (lag : ℕ) : Except String PearsonVal :=
  if data.length ≤ lag then .error lagErrMsg
  else pr (pySliceDropLast data lag) (data.drop lag)

/-!
Part 2: the discrete-event simulation of src/simulation.py.

Time is a rational number. The random sources of the Python code are made
explicit finite input streams, consumed from the head:
  ia     the interarrival distribution generator (next(self.interarrival_dist))
  prepT  the preparation-time generator (next(self.prep_time_dist))
  opT    the numpy global generator drawn by np.random.exponential(20)
  recT   the recovery-time generator (next(self.recovery_time_dist))
  rand   the random-module stream drawn by random.random(), the only source
         affected by random.seed(seed)
Drawing from an exhausted stream yields 0; the source generators are
infinite, and every concrete run below supplies enough values.

simpy semantics embedded here: the scheduler pops the pending event with
the least (time, event id) key; env.run(until=duration) does not execute
events at or beyond the horizon (the stop event is scheduled with URGENT
priority, ahead of same-time NORMAL events). A Resource grants a request
immediately when in_use < capacity, else the requester joins the waiting
queue (FIFO for the theater and recovery, ordered by (priority, arrival)
for the preparation PriorityResource); a release hands the unit to the
head waiter without the in-use count dropping in between. Everything the
Python code does between two suspension points at one instant is executed
as one scheduler step here, in source order: on operation completion the
blocking check, the clearing of theater_busy_start, the theater release
(the with-block exit) and this patient's recovery request all happen at
that instant, in that order, exactly as in operation_process and
patient_lifecycle.
-/

/-- A pending scheduler event action. genTick carries the patient spawned by
the arrival generator at this wake-up (with the priority decided at the
previous iteration, as in generate_patients) and the next patient id. -/
inductive Act where
  | genTick : Option (ℕ × ℤ) → ℕ → Act
  | prepDone : ℕ → Act
  | opDone : ℕ → Act
  | recDone : ℕ → Act
deriving DecidableEq

/-- Observable trace events recorded by the embedding. opComplete records
the recovery in-use count and waiting-queue length read at the completion
instant, the values inspected by the blocking check. blockAppend records
the theater_busy_start value, the append instant and the appended number. -/
inductive TraceEv where
  | arrival : ℕ → ℤ → ℚ → TraceEv
  | prepStart : ℕ → ℚ → TraceEv
  | opStart : ℕ → ℚ → TraceEv
  | opComplete : ℕ → ℚ → ℤ → ℕ → TraceEv
  | blockAppend : ℕ → ℚ → ℚ → ℚ → TraceEv
  | theaterRelease : ℕ → ℚ → TraceEv
  | recoveryRequest : ℕ → ℚ → TraceEv
  | recoveryGrant : ℕ → ℚ → TraceEv
  | discharge : ℕ → ℚ → TraceEv
deriving DecidableEq

/-- A FIFO resource pool (simpy.Resource): the operating theater and the
recovery pool. The waiting list holds patient ids in grant order. The
in-use count is an integer so that its bounds are a theorem, not a typing
artifact. -/
structure FPool where
  capacity : ℕ
  in_use : ℤ
  waiting : List ℕ
deriving DecidableEq

/-- A priority resource pool (simpy.PriorityResource): the preparation pool.
Waiters are (priority, sequence, patient id), kept sorted by (priority,
sequence); lower priority values are served first, ties in arrival order. -/
structure PPool where
  capacity : ℕ
  in_use : ℤ
  waiting : List (ℤ × ℕ × ℕ)
  nextSeq : ℕ
deriving DecidableEq

/-- The whole simulation state: clock, horizon, pending events keyed by
(time, event id), the three pools, the blocking bookkeeping of
HospitalSimulation, the five input streams and the observation trace. -/
structure SimState where
  now : ℚ
  duration : ℚ
  warm_up : ℚ
  nextEid : ℕ
  events : List (ℚ × ℕ × Act)
  prep : PPool
  theater : FPool
  recovery : FPool
  theater_busy_start : Option ℚ
  theater_blocked_times : List ℚ
  ia : List ℚ
  prepT : List ℚ
  opT : List ℚ
  recT : List ℚ
  rand : List ℚ
  trace : List TraceEv
deriving DecidableEq

/-- Draw the next value from a stream, 0 when exhausted. -/
def draw : List ℚ → ℚ × List ℚ
  | [] => (0, [])
  | x :: xs => (x, xs)

/-- Insert an event keyed by (time, id). New events always carry a fresh,
maximal id, so placing the event after every entry with time ≤ its time
realises the lexicographic (time, id) order with stable FIFO tie-breaks. -/
def insertEv (ev : ℚ × ℕ × Act) : List (ℚ × ℕ × Act) → List (ℚ × ℕ × Act)
  | [] => [ev]
  | e :: es => if e.1 ≤ ev.1 then e :: insertEv ev es else ev :: e :: es

/-- Schedule an action at an absolute time with a fresh event id. -/
def schedule (s : SimState) (t : ℚ) (a : Act) : SimState :=
  { s with events := insertEv (t, s.nextEid, a) s.events, nextEid := s.nextEid + 1 }

/-- Append one observation to the trace. -/
def pushTrace (s : SimState) (e : TraceEv) : SimState :=
  { s with trace := s.trace ++ [e] }

/-- Insert a waiter into a priority queue sorted by (priority, sequence).
The new sequence number is maximal, so the waiter goes after every entry of
priority ≤ its own: stable order within a priority class, as in the
SortedQueue of simpy.PriorityResource. -/
def insertPrioW (w : ℤ × ℕ × ℕ) : List (ℤ × ℕ × ℕ) → List (ℤ × ℕ × ℕ)
  | [] => [w]
  | x :: xs => if x.1 ≤ w.1 then x :: insertPrioW w xs else w :: x :: xs

/-- The preparation request of preparation_process: granted a unit at once
when one is free (drawing the service time and scheduling the end of
preparation), otherwise queued by (priority, arrival). -/
def requestPrep (pid : ℕ) (prio : ℤ) (s : SimState) : SimState :=
  if s.prep.in_use < s.prep.capacity then
    let d := (draw s.prepT).1
    let s1 := { s with prep := { s.prep with in_use := s.prep.in_use + 1 },
                       prepT := (draw s.prepT).2 }
    let s2 := pushTrace s1 (.prepStart pid s1.now)
    schedule s2 (s2.now + d) (.prepDone pid)
  else
    { s with prep := { s.prep with
        waiting := insertPrioW (prio, s.prep.nextSeq, pid) s.prep.waiting,
        nextSeq := s.prep.nextSeq + 1 } }

/-- The with-block exit of preparation_process: the unit is handed to the
best waiter, which draws its own service time, or the in-use count drops. -/
def releasePrep (s : SimState) : SimState :=
  match s.prep.waiting with
  | [] => { s with prep := { s.prep with in_use := s.prep.in_use - 1 } }
  | w :: ws =>
    let d := (draw s.prepT).1
    let s1 := { s with prep := { s.prep with waiting := ws },
                       prepT := (draw s.prepT).2 }
    let s2 := pushTrace s1 (.prepStart w.2.2 s1.now)
    schedule s2 (s2.now + d) (.prepDone w.2.2)

/-- The theater request of operation_process: when the theater is free the
patient enters, theater_busy_start is recorded and the operation time is
drawn from the numpy stream; otherwise the patient joins the FIFO queue. -/
def requestTheater (pid : ℕ) (s : SimState) : SimState :=
  if s.theater.in_use < s.theater.capacity then
    let d := (draw s.opT).1
    let s1 := { s with theater := { s.theater with in_use := s.theater.in_use + 1 },
                       theater_busy_start := some s.now, opT := (draw s.opT).2 }
    let s2 := pushTrace s1 (.opStart pid s1.now)
    schedule s2 (s2.now + d) (.opDone pid)
  else
    { s with theater := { s.theater with waiting := s.theater.waiting ++ [pid] } }

/-- The with-block exit of operation_process: the theater unit is handed to
the head waiter, which records its own busy start and draws its operation
time, or the in-use count drops. -/
def releaseTheater (s : SimState) : SimState :=
  match s.theater.waiting with
  | [] => { s with theater := { s.theater with in_use := s.theater.in_use - 1 } }
  | w :: ws =>
    let d := (draw s.opT).1
    let s1 := { s with theater := { s.theater with waiting := ws },
                       theater_busy_start := some s.now, opT := (draw s.opT).2 }
    let s2 := pushTrace s1 (.opStart w s1.now)
    schedule s2 (s2.now + d) (.opDone w)

/-- The recovery request of recovery_process: granted at once when a unit is
free, else queued FIFO. -/
def requestRecovery (pid : ℕ) (s : SimState) : SimState :=
  if s.recovery.in_use < s.recovery.capacity then
    let d := (draw s.recT).1
    let s1 := { s with recovery := { s.recovery with in_use := s.recovery.in_use + 1 },
                       recT := (draw s.recT).2 }
    let s2 := pushTrace s1 (.recoveryGrant pid s1.now)
    schedule s2 (s2.now + d) (.recDone pid)
  else
    { s with recovery := { s.recovery with waiting := s.recovery.waiting ++ [pid] } }

/-- The with-block exit of recovery_process. -/
def releaseRecovery (s : SimState) : SimState :=
  match s.recovery.waiting with
  | [] => { s with recovery := { s.recovery with in_use := s.recovery.in_use - 1 } }
  | w :: ws =>
    let d := (draw s.recT).1
    let s1 := { s with recovery := { s.recovery with waiting := ws },
                       recT := (draw s.recT).2 }
    let s2 := pushTrace s1 (.recoveryGrant w s1.now)
    schedule s2 (s2.now + d) (.recDone w)

/-- A freshly arrived patient enters the preparation pool. Embeds the start
of preparation_process reached through patient_lifecycle. -/
def startPatient (pid : ℕ) (prio : ℤ) (s : SimState) : SimState :=
  requestPrep pid prio (pushTrace s (.arrival pid prio s.now))

/-- The priority decision of one generate_patients loop iteration, taken at
the current clock value, before the interarrival wait: general (1) before
the warm-up time, else emergency (0) exactly when random.random() < 0.2. -/
def genPrio (s : SimState) : ℤ :=
  if s.warm_up ≤ s.now then (if (draw s.rand).1 < 1 / 5 then 0 else 1) else 1

/-- The random-module stream after the priority decision: one draw is
consumed exactly when the clock has reached warm-up. -/
def genRand (s : SimState) : List ℚ :=
  if s.warm_up ≤ s.now then (draw s.rand).2 else s.rand

/-- One wake-up of generate_patients: first the loop body that runs at this
instant (the priority for the next patient, drawn from the random stream
only when now has reached warm_up, and the next interarrival delay), then
the spawn of the patient whose timeout just elapsed, carrying the priority
decided at the previous wake-up. -/
def handleGenTick (sp : Option (ℕ × ℤ)) (n : ℕ) (s : SimState) : SimState :=
  let d := (draw s.ia).1
  let s1 := { s with rand := genRand s, ia := (draw s.ia).2 }
  let s2 := schedule s1 (s1.now + d) (.genTick (some (n, genPrio s)) (n + 1))
  match sp with
  | none => s2
  | some (p, pr) => startPatient p pr s2

/-- End of a preparation service: the with-block exit releases the unit
(handing it to the best waiter, which draws its own service time), then the
patient requests the operating theater, recording theater_busy_start and
drawing the operation time from the numpy stream when granted. Embeds the
end of preparation_process and the start of operation_process. -/
def handlePrepDone (pid : ℕ) (s : SimState) : SimState :=
  requestTheater pid (releasePrep s)

/-- Completion of an operation service, in the source order of
operation_process and patient_lifecycle: the blocking check reads
len(recovery.queue) and, when at least one patient is already waiting for
recovery, appends now - theater_busy_start (the whole service duration) to
theater_blocked_times; theater_busy_start is cleared; the with-block exit
releases the theater, handing it to the head waiter if any (which records
its own busy start and draws its operation time); only then does this
patient request a recovery unit. -/
def handleOpDone (pid : ℕ) (s : SimState) : SimState :=
  let ql := s.recovery.waiting.length
  let s := pushTrace s (.opComplete pid s.now s.recovery.in_use ql)
  let s :=
    if 1 ≤ ql then
      let b := s.theater_busy_start.getD s.now
      let s := { s with theater_blocked_times := s.theater_blocked_times ++ [s.now - b] }
      pushTrace s (.blockAppend pid b s.now (s.now - b))
    else s
  let s := { s with theater_busy_start := none }
  let s := releaseTheater (pushTrace s (.theaterRelease pid s.now))
  requestRecovery pid (pushTrace s (.recoveryRequest pid s.now))

/-- Completion of a recovery service: discharge, and the with-block exit
releases the unit, handing it to the head waiter if any. Embeds the end of
recovery_process. -/
def handleRecDone (pid : ℕ) (s : SimState) : SimState :=
  releaseRecovery (pushTrace s (.discharge pid s.now))

/-- Dispatch one event action. -/
def exec : Act → SimState → SimState
  | .genTick sp n, s => handleGenTick sp n s
  | .prepDone pid, s => handlePrepDone pid s
  | .opDone pid, s => handleOpDone pid s
  | .recDone pid, s => handleRecDone pid s

/-- One scheduler step: pop the least-keyed pending event; if it lies before
the horizon, advance the clock to its time and execute it, otherwise leave
the state unchanged (env.run(until=duration) never executes events at or
beyond the horizon). -/
def step (s : SimState) : SimState :=
  match s.events with
  | [] => s
  | (t, _, a) :: rest =>
    if t < s.duration then exec a { s with now := t, events := rest } else s

/-- The configuration of one replication: the constructor arguments of
HospitalSimulation in src/simulation.py together with the warm-up marker
and horizon of run_simulation. The theater capacity is the literal 1 of
simpy.Resource(env, 1). -/
structure Cfg where
  num_prep : ℕ
  num_recovery : ℕ
  warm_up : ℚ
  duration : ℚ
deriving DecidableEq

/-- The explicit random inputs of one replication. -/
structure Str where
  ia : List ℚ
  prepT : List ℚ
  opT : List ℚ
  recT : List ℚ
  rand : List ℚ
deriving DecidableEq

/-- The state right after HospitalSimulation.__init__ and the scheduling of
generate_patients: empty pools, and one pending generator wake-up at time 0
that will decide the first priority and the first interarrival delay. -/
def initState (cfg : Cfg) (str : Str) : SimState :=
  { now := 0, duration := cfg.duration, warm_up := cfg.warm_up, nextEid := 1,
    events := [(0, 0, .genTick none 0)],
    prep := { capacity := cfg.num_prep, in_use := 0, waiting := [], nextSeq := 0 },
    theater := { capacity := 1, in_use := 0, waiting := [] },
    recovery := { capacity := cfg.num_recovery, in_use := 0, waiting := [] },
    theater_busy_start := none, theater_blocked_times := [],
    ia := str.ia, prepT := str.prepT, opT := str.opT, recT := str.recT,
    rand := str.rand, trace := [] }

/-- Run the simulation for a number of scheduler steps. Every state the
scheduler can reach is runSim of some fuel. -/
def runSim (cfg : Cfg) (str : Str) : ℕ → SimState
  | 0 => initState cfg str
  | n + 1 => step (runSim cfg str n)

/-- Whether a trace event is a blockAppend of the given patient. -/
def isBlockOf (pid : ℕ) : TraceEv → Bool
  | .blockAppend p _ _ _ => p == pid
  | _ => false

/-- Whether a trace event is an opComplete of the given patient. -/
def isOpCOf (pid : ℕ) : TraceEv → Bool
  | .opComplete p _ _ _ => p == pid
  | _ => false

/-- Whether a trace event is an opComplete of the given patient at which the
recovery waiting queue was non-empty, the saturation condition of the code. -/
def isSatOpCOf (pid : ℕ) : TraceEv → Bool
  | .opComplete p _ _ ql => p == pid && decide (1 ≤ ql)
  | _ => false

/-- Whether a trace event is a recoveryGrant of the given patient. -/
def isRecGrantOf (pid : ℕ) : TraceEv → Bool
  | .recoveryGrant p _ => p == pid
  | _ => false

/-- Whether a trace event is a discharge of the given patient. -/
def isDisOf (pid : ℕ) : TraceEv → Bool
  | .discharge p _ => p == pid
  | _ => false

/-- Count the blockAppend observations of one patient. -/
def cBlock (pid : ℕ) (tr : List TraceEv) : ℕ := tr.countP (isBlockOf pid)

/-- Count the opComplete observations of one patient. -/
def cOpC (pid : ℕ) (tr : List TraceEv) : ℕ := tr.countP (isOpCOf pid)

/-- Count the saturated opComplete observations of one patient. -/
def cSatOpC (pid : ℕ) (tr : List TraceEv) : ℕ := tr.countP (isSatOpCOf pid)

/-- Count the recoveryGrant observations of one patient. -/
def cRecGrant (pid : ℕ) (tr : List TraceEv) : ℕ := tr.countP (isRecGrantOf pid)

/-- Count the discharge observations of one patient. -/
def cDis (pid : ℕ) (tr : List TraceEv) : ℕ := tr.countP (isDisOf pid)

/-- The stage-entry timestamps of a run: (stage, patient, time) for entry
into preparation (0), operation (1) and recovery (2), in trace order. -/
def entryTimes (tr : List TraceEv) : List (ℕ × ℕ × ℚ) :=
  tr.filterMap fun e => match e with
    | .prepStart p t => some (0, p, t)
    | .opStart p t => some (1, p, t)
    | .recoveryGrant p t => some (2, p, t)
    | _ => none

/-- Whether a pending event is a generator wake-up. -/
def isGenEv (e : ℚ × ℕ × Act) : Bool :=
  match e.2.2 with | .genTick _ _ => true | _ => false

/-- Whether a pending event is an end-of-preparation for any patient. -/
def isPrepEvAny (e : ℚ × ℕ × Act) : Bool :=
  match e.2.2 with | .prepDone _ => true | _ => false

/-- Whether a pending event is an end-of-operation for any patient. -/
def isOpEvAny (e : ℚ × ℕ × Act) : Bool :=
  match e.2.2 with | .opDone _ => true | _ => false

/-- Whether a pending event is an end-of-recovery for any patient. -/
def isRecEvAny (e : ℚ × ℕ × Act) : Bool :=
  match e.2.2 with | .recDone _ => true | _ => false

/-- Whether a pending event is an end-of-preparation of the given patient. -/
def isPrepEvOf (pid : ℕ) (e : ℚ × ℕ × Act) : Bool :=
  match e.2.2 with | .prepDone p => p == pid | _ => false

/-- Whether a pending event is an end-of-operation of the given patient. -/
def isOpEvOf (pid : ℕ) (e : ℚ × ℕ × Act) : Bool :=
  match e.2.2 with | .opDone p => p == pid | _ => false

/-- Whether a pending event is an end-of-recovery of the given patient. -/
def isRecEvOf (pid : ℕ) (e : ℚ × ℕ × Act) : Bool :=
  match e.2.2 with | .recDone p => p == pid | _ => false

/-- Whether a pending event is a generator wake-up whose pending spawn is
the given patient. -/
def isSpawnOf (pid : ℕ) (e : ℚ × ℕ × Act) : Bool :=
  match e.2.2 with | .genTick (some (p, _)) _ => p == pid | _ => false

/-- Number of places one patient occupies in the pipeline: pending spawn,
pending end-of-stage events, and the three waiting queues. Every live
patient occupies exactly one such place. -/
def tokSum (pid : ℕ) (s : SimState) : ℕ :=
  s.events.countP (isSpawnOf pid) + s.events.countP (isPrepEvOf pid)
    + s.events.countP (isOpEvOf pid) + s.events.countP (isRecEvOf pid)
    + s.prep.waiting.countP (fun w => w.2.2 == pid)
    + s.theater.waiting.countP (· == pid)
    + s.recovery.waiting.countP (· == pid)

/-- Occupancy invariant: each pool's in-use count equals the number of
pending end-of-service events of that pool (each holder owns exactly one),
and is bounded by the capacity. -/
def UseInv (s : SimState) : Prop :=
  s.prep.in_use = (s.events.countP isPrepEvAny : ℤ)
    ∧ s.theater.in_use = (s.events.countP isOpEvAny : ℤ)
    ∧ s.recovery.in_use = (s.events.countP isRecEvAny : ℤ)
    ∧ s.prep.in_use ≤ (s.prep.capacity : ℤ)
    ∧ s.theater.in_use ≤ (s.theater.capacity : ℤ)
    ∧ s.recovery.in_use ≤ (s.recovery.capacity : ℤ)

/-- Token invariant: there is exactly one pending generator wake-up, its
payload determines the next patient id, and every patient below that id
occupies exactly one pipeline place or is discharged. -/
def TokInv (s : SimState) : Prop :=
  ∃ sp N,
    s.events.countP isGenEv = 1
    ∧ (∀ ev ∈ s.events, isGenEv ev = true → ev.2.2 = Act.genTick sp N)
    ∧ (∀ p pr, sp = some (p, pr) → N = p + 1)
    ∧ (∀ pid, tokSum pid s + cDis pid s.trace = if pid < N then 1 else 0)

/-- Number of recovery-side pipeline places of one patient: waiting for a
recovery unit or holding one. -/
def recTok (q : ℕ) (s : SimState) : ℕ :=
  s.recovery.waiting.countP (· == q) + s.events.countP (isRecEvOf q)

/-- Completion-record invariant: an opComplete is recorded for exactly the
patients that have moved past the operation stage (waiting for recovery, in
recovery, or discharged). -/
def OpCInv (s : SimState) : Prop :=
  ∀ pid, cOpC pid s.trace = recTok pid s + cDis pid s.trace

/-- Blocking bookkeeping matches the trace: as many blockAppend entries per
patient as saturated operation completions. -/
def CntOK (s : SimState) : Prop :=
  ∀ pid, cBlock pid s.trace = cSatOpC pid s.trace

/-- Every recorded theater release happens at an instant at which the same
patient also records its operation completion and its recovery request. -/
def C2TraceOK (s : SimState) : Prop :=
  ∀ pid t, TraceEv.theaterRelease pid t ∈ s.trace →
    (∃ iu ql, TraceEv.opComplete pid t iu ql ∈ s.trace)
      ∧ TraceEv.recoveryRequest pid t ∈ s.trace

/-- The pending-event queue is sorted by time. -/
def EvSorted (s : SimState) : Prop :=
  s.events.Pairwise (fun a b => a.1 ≤ b.1)

/-- No pending event lies before the current clock value. -/
def EvTimeLB (s : SimState) : Prop :=
  ∀ ev ∈ s.events, s.now ≤ ev.1

/-- Whenever an end-of-operation is pending, theater_busy_start records the
instant at which that patient entered the theater, and that instant does not
lie in the future. -/
def ThPair (s : SimState) : Prop :=
  ∀ t' e' q, (t', e', Act.opDone q) ∈ s.events →
    ∃ b, s.theater_busy_start = some b ∧ TraceEv.opStart q b ∈ s.trace
      ∧ b ≤ s.now

/-- Every recorded blockAppend stores the theater-entry instant of its
patient, the completion instant, and their difference (the whole operation
service duration, a nonnegative value), and is paired with a saturated
operation completion at the same instant. -/
def C4TraceOK (s : SimState) : Prop :=
  ∀ pid b t v, TraceEv.blockAppend pid b t v ∈ s.trace →
    v = t - b ∧ 0 ≤ v ∧ TraceEv.opStart pid b ∈ s.trace
      ∧ ∃ iu ql, TraceEv.opComplete pid t iu ql ∈ s.trace ∧ 1 ≤ ql

/-- All entries of a stream are nonnegative. -/
def nnQ (l : List ℚ) : Prop := ∀ q ∈ l, 0 ≤ q

/-- The four duration streams are nonnegative, as every value drawn from the
exponential and uniform distributions of the source is. -/
def nnStr (str : Str) : Prop :=
  nnQ str.ia ∧ nnQ str.prepT ∧ nnQ str.opT ∧ nnQ str.recT

/-- The duration streams held in a state are nonnegative. -/
def NN (s : SimState) : Prop :=
  nnQ s.ia ∧ nnQ s.prepT ∧ nnQ s.opT ∧ nnQ s.recT

/-- Occupancy with explicit slack: each pool's in-use count exceeds its
pending end-of-service event count by the given delta (the number of
holders whose end event has been popped but whose release has not yet
run), and stays within capacity. UseInv is the slack-free case. -/
def UseInvX (s : SimState) (dp dt dr : ℤ) : Prop :=
  s.prep.in_use = (s.events.countP isPrepEvAny : ℤ) + dp
    ∧ s.theater.in_use = (s.events.countP isOpEvAny : ℤ) + dt
    ∧ s.recovery.in_use = (s.events.countP isRecEvAny : ℤ) + dr
    ∧ s.prep.in_use ≤ (s.prep.capacity : ℤ)
    ∧ s.theater.in_use ≤ (s.theater.capacity : ℤ)
    ∧ s.recovery.in_use ≤ (s.recovery.capacity : ℤ)

/-- Modelled from the spec: the priority class the specification assigns,
determined by the patient's own arrival time: general (1) before the
warm-up time, else emergency (0) exactly when the patient's random draw is
below the emergency probability 1/5 of the code. -/
def specPriority (warm_up arrival r : ℚ) : ℤ :=
  if arrival < warm_up then 1 else if r < 1 / 5 then 0 else 1

/-- Concrete replication A: one preparation unit, one recovery unit, all
arrivals inside the warm-up window (every priority is general), three
patients. Patient 0 occupies recovery during [3, 13]; patient 1 completes
its operation at 11/2 while recovery is saturated with an empty waiting
queue; patient 2 completes its operation at 8 while patient 1 is waiting
for recovery. All event times are pairwise distinct. -/
def cfgA : Cfg := { num_prep := 1, num_recovery := 1, warm_up := 1000, duration := 100 }

/-- Input streams of replication A. -/
def strA : Str :=
  { ia := [1, 5/2, 3/2, 100], prepT := [1, 1, 1], opT := [1, 1, 2],
    recT := [10, 1, 1], rand := [] }

/-- The final state of replication A; 20 steps exhaust every event before
the horizon. -/
def runA : SimState := runSim cfgA strA 20

/-- Concrete replication for the priority claim: warm-up 10, first patient
arrives at 15, after warm-up, with an emergency draw of 1/10 available in
the seeded stream. -/
def cfg7 : Cfg := { num_prep := 1, num_recovery := 1, warm_up := 10, duration := 20 }

/-- Input streams of the priority replication. -/
def str7 : Str :=
  { ia := [15, 50], prepT := [1], opT := [1], recT := [1], rand := [1/10, 1/10] }

/-- The final state of the priority replication. -/
def run7 : SimState := runSim cfg7 str7 8

/-- Concrete configuration for the determinism claim. -/
def cfgC : Cfg := { num_prep := 1, num_recovery := 1, warm_up := 1000, duration := 100 }

/-- First replication inputs: the numpy global stream yields an operation
time of 1. -/
def strC1 : Str :=
  { ia := [1, 100], prepT := [1], opT := [1], recT := [5], rand := [] }

/-- Second replication inputs: identical configuration and identical seeded
stream (rand), but the numpy global generator, which random.seed does not
touch, is in a different state and yields an operation time of 2. -/
def strC2 : Str :=
  { ia := [1, 100], prepT := [1], opT := [2], recT := [5], rand := [] }

/-!
Theorems. First the statistics layer, then the simulation claims.
-/

/-- NaN absorbs on the left of subtraction. -/
theorem EF.nan_sub (x : EF) : EF.nan - x = EF.nan := by cases x <;> rfl

/-- NaN absorbs on the right of subtraction. -/
theorem EF.sub_nan (x : EF) : x - EF.nan = EF.nan := by cases x <;> rfl

/-- NaN absorbs on the left of addition. -/
theorem EF.nan_add (x : EF) : EF.nan + x = EF.nan := by cases x <;> rfl

/-- NaN absorbs on the right of addition. -/
theorem EF.add_nan (x : EF) : x + EF.nan = EF.nan := by cases x <;> rfl

/-- NaN absorbs on the left of multiplication. -/
theorem EF.nan_mul (x : EF) : EF.nan * x = EF.nan := by cases x <;> rfl

/-- NaN absorbs on the right of multiplication. -/
theorem EF.mul_nan (x : EF) : x * EF.nan = EF.nan := by cases x <;> rfl

/-- NaN absorbs on the left of division. -/
theorem EF.nan_div (x : EF) : EF.nan / x = EF.nan := by cases x <;> rfl

/-- Subtraction of numeric values. -/
theorem EF.val_sub_val (a b : ℚ) : EF.val a - EF.val b = EF.val (a - b) := rfl

/-- Addition of numeric values. -/
theorem EF.val_add_val (a b : ℚ) : EF.val a + EF.val b = EF.val (a + b) := rfl

/-- Multiplication of numeric values. -/
theorem EF.val_mul_val (a b : ℚ) : EF.val a * EF.val b = EF.val (a * b) := rfl

/-- Division of numeric values with a nonzero divisor. -/
theorem EF.val_div_val (a b : ℚ) (hb : b ≠ 0) :
    EF.val a / EF.val b = EF.val (a / b) := by
  show EF.div (EF.val a) (EF.val b) = EF.val (a / b)
  simp [EF.div, hb]

/-- C9: when no simulated time has elapsed the blocking-probability
computation returns 0 rather than dividing by zero; for a positive clock it
returns the sum of the recorded blocked durations divided by the clock. -/
theorem claim_C9_blocking_probability_guard (bs : List ℚ) (t : ℚ) :
    calculate_blocking_probability bs 0 = 0
      ∧ (0 < t → calculate_blocking_probability bs t = bs.sum / t) := by
  refine ⟨?_, fun ht => ?_⟩
  · simp [calculate_blocking_probability]
  · simp [calculate_blocking_probability, ht]

/-- Witness for C9 at the clock value 4. -/
theorem claim_C9_witness :
    (0:ℚ) < 4 ∧ calculate_blocking_probability [2, 3] 4 = List.sum [2, 3] / 4 :=
  ⟨by decide, (claim_C9_blocking_probability_guard [2, 3] 4).2 (by decide)⟩

/-- C10: for lag 0 and any non-empty data vector, the length guard of
calculate_serial_correlation does not trigger, yet the slice data[:-0] is
the empty list, so the Pearson kernel is called on an empty first argument
and raises: no correlation is returned for lag 0. -/
theorem claim_C10_lag_zero_uncovered (data : List ℚ) (h : data ≠ []) :
    ¬ (data.length ≤ 0)
      ∧ pySliceDropLast data 0 = []
      ∧ calculate_serial_correlation pearsonrModel data 0
          = .error lenMismatchMsg := by
  have hlen : 0 < data.length := List.length_pos.mpr h
  refine ⟨by omega, by simp [pySliceDropLast], ?_⟩
  have hg : ¬ (data.length ≤ 0) := by omega
  have hne : ([] : List ℚ).length ≠ data.length := by
    simp only [List.length_nil]
    omega
  rw [calculate_serial_correlation, if_neg hg, pySliceDropLast, if_pos rfl,
    List.drop_zero, pearsonrModel, if_pos hne]

/-- Witness for C10 at the data vector [5, 7]. -/
theorem claim_C10_witness :
    ([5, 7] : List ℚ) ≠ []
      ∧ (¬ (([5, 7] : List ℚ).length ≤ 0)
          ∧ pySliceDropLast [5, 7] 0 = []
          ∧ calculate_serial_correlation pearsonrModel [5, 7] 0
              = .error lenMismatchMsg) :=
  ⟨by decide, claim_C10_lag_zero_uncovered [5, 7] (by decide)⟩

/-- C5 counterexample: one data point is fewer than two, yet
calculate_confidence_intervals returns the numeric pair (NaN, NaN) instead
of failing with an insufficient-sample-size error: the source has no guard
and no raise statement at all. -/
theorem claim_C5_counterexample :
    ([(5:ℚ)].length < 2)
      ∧ calculate_confidence_intervals sqrtModel tppfModel (95/100) [5]
          = .ok (.nan, .nan) :=
  ⟨by decide, rfl⟩

/-- C5 amended: for fewer than two data points the computation silently
returns the numeric pair (NaN, NaN), for any square-root and t-quantile
functions, because the sample standard deviation with denominator n - 1 is
NaN there and NaN propagates; for n ≥ 2 and a numeric t-critical value it
returns mean plus and minus t-critical times std over the square root of n,
exactly the claimed formula. -/
theorem claim_C5_ci_behavior (sqrtF : ℚ → ℚ) (tppf : ℚ → ℤ → EF)
    (c : ℚ) (data : List ℚ) :
    (data.length < 2 →
      calculate_confidence_intervals sqrtF tppf c data = .ok (.nan, .nan))
    ∧ (∀ tval, 2 ≤ data.length →
        tppf ((1 + c) / 2) ((data.length : ℤ) - 1) = .val tval →
        sqrtF (data.length : ℚ) ≠ 0 →
        calculate_confidence_intervals sqrtF tppf c data =
          .ok (.val ((data.sum / data.length) -
                  tval * (sqrtF (sqDevSum data / ((data.length : ℚ) - 1)) /
                    sqrtF (data.length : ℚ))),
               .val ((data.sum / data.length) +
                  tval * (sqrtF (sqDevSum data / ((data.length : ℚ) - 1)) /
                    sqrtF (data.length : ℚ))))) := by
  constructor
  · intro hlen
    have hstd : npStd sqrtF data = EF.nan := by
      have : data.length ≤ 1 := by omega
      simp [npStd, this]
    cases h : tppf ((1 + c) / 2) ((data.length : ℤ) - 1) <;>
      cases hm : npMean data <;>
        simp [calculate_confidence_intervals, calculate_point_estimates, hstd,
          hm, h, EF.nan_div, EF.nan_mul, EF.mul_nan, EF.nan_sub, EF.sub_nan,
          EF.nan_add, EF.add_nan]
  · intro tval hlen htppf hsq
    have h1 : ¬ (data.length ≤ 1) := by omega
    have h0 : ¬ (data = []) := by
      intro h
      subst h
      simp at hlen
    rw [calculate_confidence_intervals]
    simp only [calculate_point_estimates, npMean, npStd, if_neg h0, if_neg h1,
      htppf, EF.val_div_val _ _ hsq, EF.val_mul_val, EF.val_sub_val,
      EF.val_add_val]

/-- Witness for C5 at the data vector [1, 3], with the identity function
standing in for the square root (the theorem holds for every sqrtF) and a
t-quantile value of 3. -/
theorem claim_C5_witness :
    2 ≤ ([1, 3] : List ℚ).length
      ∧ calculate_confidence_intervals (fun q => q) (fun _ _ => .val 3) (95/100) [1, 3] =
          .ok (.val ((List.sum [1, 3] / (List.length [1, 3] : ℚ)) -
                  3 * ((sqDevSum [1, 3] / ((List.length [1, 3] : ℚ) - 1)) /
                    (List.length [1, 3] : ℚ))),
               .val ((List.sum [1, 3] / (List.length [1, 3] : ℚ)) +
                  3 * ((sqDevSum [1, 3] / ((List.length [1, 3] : ℚ) - 1)) /
                    (List.length [1, 3] : ℚ)))) :=
  ⟨by decide,
    (claim_C5_ci_behavior (fun q => q) (fun _ _ => .val 3) (95/100) [1, 3]).2 3
      (by decide) rfl (by decide)⟩

/-- C6 counterexample: for data of length 3 and lag 0 the data length
exceeds the lag, yet the function raises (the first slice is empty, so the
Pearson kernel fails on mismatched lengths) instead of returning the
correlation between the first three elements and the unshifted sequence. -/
theorem claim_C6_counterexample :
    0 < ([1, 2, 3] : List ℚ).length
      ∧ calculate_serial_correlation pearsonrModel [1, 2, 3] 0
          = .error lenMismatchMsg :=
  ⟨by decide, rfl⟩

/-- C6 amended: the guard raises exactly when len(data) ≤ lag; for lag ≥ 1
and len(data) > lag the function returns the Pearson-correlation kernel
applied to the first n - lag elements and the elements from position lag on
(that kernel call itself fails when the slices are shorter than two). The
lag = 0 case escapes the guard but passes an empty first slice, so no
correlation is returned there. -/
theorem claim_C6_serial_correlation_behavior
    (pr : List ℚ → List ℚ → Except String PearsonVal)
    (data : List ℚ) (lag : ℕ) :
    (data.length ≤ lag →
      calculate_serial_correlation pr data lag = .error lagErrMsg)
    ∧ (1 ≤ lag → lag < data.length →
        calculate_serial_correlation pr data lag
          = pr (data.take (data.length - lag)) (data.drop lag)) := by
  constructor
  · intro h
    simp [calculate_serial_correlation, h]
  · intro h1 h2
    have hg : ¬ (data.length ≤ lag) := by omega
    have hz : lag ≠ 0 := by omega
    simp [calculate_serial_correlation, hg, pySliceDropLast, hz]

/-- Witness for C6 exercising both the raising branch (one point, lag 3)
and the returning branch (four points, lag 1). -/
theorem claim_C6_witness :
    (([1] : List ℚ).length ≤ 3
        ∧ calculate_serial_correlation pearsonrModel [1] 3 = .error lagErrMsg)
      ∧ (1 < ([1, 2, 3, 4] : List ℚ).length
        ∧ calculate_serial_correlation pearsonrModel [1, 2, 3, 4] 1
            = pearsonrModel (List.take 3 [1, 2, 3, 4]) (List.drop 1 [1, 2, 3, 4])) :=
  ⟨⟨by decide,
      (claim_C6_serial_correlation_behavior pearsonrModel [1] 3).1 (by decide)⟩,
    ⟨by decide,
      (claim_C6_serial_correlation_behavior pearsonrModel [1, 2, 3, 4] 1).2
        (by decide) (by decide)⟩⟩

/-- C3: the failing input evaluated. Two replications share the
configuration and the whole seeded random source (rand, the only stream
random.seed(seed) determines) as well as the generator-supplied duration
streams; they differ only in the numpy global stream feeding
np.random.exponential(20) at line 29 of src/simulation.py, which
random.seed does not touch and which advances from one replication to the
next. The stage-entry timestamp sequences of the two replications differ:
identical configuration and seed do not give bit-identical runs. -/
theorem claim_C3_seed_does_not_determine :
    strC1.rand = strC2.rand ∧ strC1.ia = strC2.ia ∧ strC1.prepT = strC2.prepT
      ∧ strC1.recT = strC2.recT
      ∧ entryTimes (runSim cfgC strC1 6).trace
          ≠ entryTimes (runSim cfgC strC2 6).trace := by
  refine ⟨rfl, rfl, rfl, rfl, ?_⟩
  decide

/-- C1 counterexample: in replication A, patient 1 completes its operation
at 11/2 with the recovery pool at full capacity and an empty waiting queue
(in-use 1 equals the capacity of one recovery unit, so the pool has no free
unit and the waiting-list-plus-in-use count equals the capacity), yet no
BlockingInterval is appended for patient 1: the code tests
len(recovery.queue) >= 1, not pool saturation. -/
theorem claim_C1_counterexample :
    TraceEv.opComplete 1 (11/2) 1 0 ∈ runA.trace
      ∧ (1 : ℤ) = (cfgA.num_recovery : ℤ)
      ∧ cOpC 1 runA.trace = 1
      ∧ cBlock 1 runA.trace = 0 := by
  decide

/-- C2 counterexample: in replication A, patient 1 completes its operation
at 11/2 while recovery is saturated; the theater unit is released at that
very instant, but patient 1 acquires its recovery unit only at 13. The
release therefore precedes the recovery grant, against the claim that the
theater is held until the grant. -/
theorem claim_C2_counterexample :
    TraceEv.theaterRelease 1 (11/2) ∈ runA.trace
      ∧ cRecGrant 1 runA.trace = 1
      ∧ TraceEv.recoveryGrant 1 13 ∈ runA.trace
      ∧ ((11:ℚ)/2 ≠ 13) := by
  decide

/-- C4 counterexample: the only BlockingInterval recorded in replication A
carries the value 2 = 8 - 6, the whole operation service duration of
patient 2: it starts at the theater-entry instant 6, not at the completion
instant 8, and covers only time before service completion, none past it. -/
theorem claim_C4_counterexample :
    TraceEv.blockAppend 2 6 8 2 ∈ runA.trace
      ∧ cBlock 2 runA.trace = 1
      ∧ TraceEv.opStart 2 6 ∈ runA.trace
      ∧ TraceEv.opComplete 2 8 1 1 ∈ runA.trace
      ∧ ((6:ℚ) ≠ 8) ∧ ((2:ℚ) ≠ 0) := by
  decide

/-- C7 counterexample: patient 0 of the priority replication arrives at 15,
at or after the warm-up time 10, and the pending seeded draw is 1/10 < 1/5,
so by the claim its class is determined by its own arrival time and would
be emergency (0); the code recorded general (1), because the priority was
decided at the previous generator wake-up (time 0, before warm-up). -/
theorem claim_C7_counterexample :
    TraceEv.arrival 0 1 15 ∈ run7.trace
      ∧ cfg7.warm_up = 10
      ∧ ((10:ℚ) ≤ 15)
      ∧ str7.rand = [1/10, 1/10]
      ∧ specPriority 10 15 (1/10) = 0
      ∧ ((1:ℤ) ≠ 0) := by
  decide

/-!
Helper lemmas about the scheduler primitives, feeding the invariant proofs.
-/

/-- Counting over an ordered insertion. -/
theorem countP_insertEv (p : ℚ × ℕ × Act → Bool) (ev : ℚ × ℕ × Act)
    (l : List (ℚ × ℕ × Act)) :
    (insertEv ev l).countP p = l.countP p + if p ev then 1 else 0 := by
  induction l with
  | nil => simp [insertEv, List.countP_cons]
  | cons e es ih =>
    rw [insertEv]
    split
    · rw [List.countP_cons, ih, List.countP_cons]
      omega
    · rw [List.countP_cons, List.countP_cons]

/-- Membership in an ordered insertion. -/
theorem mem_insertEv {x ev : ℚ × ℕ × Act} {l : List (ℚ × ℕ × Act)} :
    x ∈ insertEv ev l ↔ x = ev ∨ x ∈ l := by
  induction l with
  | nil => simp [insertEv]
  | cons e es ih =>
    rw [insertEv]
    split
    · simp only [List.mem_cons, ih]
      tauto
    · simp only [List.mem_cons]

/-- An ordered insertion into a time-sorted queue is time-sorted. -/
theorem pairwise_insertEv {ev : ℚ × ℕ × Act} {l : List (ℚ × ℕ × Act)}
    (h : l.Pairwise (fun a b => a.1 ≤ b.1)) :
    (insertEv ev l).Pairwise (fun a b => a.1 ≤ b.1) := by
  induction l with
  | nil => simp [insertEv]
  | cons e es ih =>
    rw [insertEv]
    rw [List.pairwise_cons] at h
    split
    · rename_i hle
      rw [List.pairwise_cons]
      refine ⟨fun x hx => ?_, ih h.2⟩
      rcases mem_insertEv.mp hx with hx | hx
      · subst hx
        exact hle
      · exact h.1 x hx
    · rename_i hgt
      push_neg at hgt
      rw [List.pairwise_cons]
      refine ⟨fun x hx => ?_, List.pairwise_cons.mpr h⟩
      rcases List.mem_cons.mp hx with hx | hx
      · subst hx
        exact le_of_lt hgt
      · exact le_of_lt (lt_of_lt_of_le hgt (h.1 x hx))

/-- Counting over a priority insertion. -/
theorem countP_insertPrioW (p : ℤ × ℕ × ℕ → Bool) (w : ℤ × ℕ × ℕ)
    (l : List (ℤ × ℕ × ℕ)) :
    (insertPrioW w l).countP p = l.countP p + if p w then 1 else 0 := by
  induction l with
  | nil => simp [insertPrioW, List.countP_cons]
  | cons e es ih =>
    rw [insertPrioW]
    split
    · rw [List.countP_cons, ih, List.countP_cons]
      omega
    · rw [List.countP_cons, List.countP_cons]

/-- A scheduler step with a processable head event executes it with the
clock advanced. -/
theorem step_head (s : SimState) (t : ℚ) (e : ℕ) (a : Act)
    (rest : List (ℚ × ℕ × Act))
    (hev : s.events = (t, e, a) :: rest) (hlt : t < s.duration) :
    step s = exec a { s with now := t, events := rest } := by
  rw [step, hev]
  simp [hlt]

/-- A scheduler step with no pending event is the identity. -/
theorem step_nil (s : SimState) (hev : s.events = []) : step s = s := by
  rw [step, hev]

/-- A scheduler step whose next event lies at or past the horizon is the
identity. -/
theorem step_horizon (s : SimState) (t : ℚ) (e : ℕ) (a : Act)
    (rest : List (ℚ × ℕ × Act))
    (hev : s.events = (t, e, a) :: rest) (hge : ¬ t < s.duration) :
    step s = s := by
  rw [step, hev]
  simp [hge]

/-- The preparation request leaves discharge, completion, blocking and
saturated-completion counts unchanged. -/
theorem trace_requestPrep (pid : ℕ) (prio : ℤ) (q : ℕ) (s : SimState) :
    cDis q (requestPrep pid prio s).trace = cDis q s.trace
      ∧ cOpC q (requestPrep pid prio s).trace = cOpC q s.trace
      ∧ cBlock q (requestPrep pid prio s).trace = cBlock q s.trace
      ∧ cSatOpC q (requestPrep pid prio s).trace = cSatOpC q s.trace := by
  rw [requestPrep]
  split <;>
    simp [schedule, pushTrace, cDis, cOpC, cBlock, cSatOpC,
      List.countP_append, List.countP_cons, isDisOf, isOpCOf, isBlockOf, isSatOpCOf]

/-- The preparation release leaves those trace counts unchanged. -/
theorem trace_releasePrep (q : ℕ) (s : SimState) :
    cDis q (releasePrep s).trace = cDis q s.trace
      ∧ cOpC q (releasePrep s).trace = cOpC q s.trace
      ∧ cBlock q (releasePrep s).trace = cBlock q s.trace
      ∧ cSatOpC q (releasePrep s).trace = cSatOpC q s.trace := by
  cases hw : s.prep.waiting <;>
    simp [releasePrep, hw, schedule, pushTrace, cDis, cOpC, cBlock, cSatOpC,
      List.countP_append, List.countP_cons, isDisOf, isOpCOf, isBlockOf, isSatOpCOf]

/-- The theater request leaves those trace counts unchanged. -/
theorem trace_requestTheater (pid : ℕ) (q : ℕ) (s : SimState) :
    cDis q (requestTheater pid s).trace = cDis q s.trace
      ∧ cOpC q (requestTheater pid s).trace = cOpC q s.trace
      ∧ cBlock q (requestTheater pid s).trace = cBlock q s.trace
      ∧ cSatOpC q (requestTheater pid s).trace = cSatOpC q s.trace := by
  rw [requestTheater]
  split <;>
    simp [schedule, pushTrace, cDis, cOpC, cBlock, cSatOpC,
      List.countP_append, List.countP_cons, isDisOf, isOpCOf, isBlockOf, isSatOpCOf]

/-- The theater release leaves those trace counts unchanged. -/
theorem trace_releaseTheater (q : ℕ) (s : SimState) :
    cDis q (releaseTheater s).trace = cDis q s.trace
      ∧ cOpC q (releaseTheater s).trace = cOpC q s.trace
      ∧ cBlock q (releaseTheater s).trace = cBlock q s.trace
      ∧ cSatOpC q (releaseTheater s).trace = cSatOpC q s.trace := by
  cases hw : s.theater.waiting <;>
    simp [releaseTheater, hw, schedule, pushTrace, cDis, cOpC, cBlock, cSatOpC,
      List.countP_append, List.countP_cons, isDisOf, isOpCOf, isBlockOf, isSatOpCOf]

/-- The recovery request leaves those trace counts unchanged. -/
theorem trace_requestRecovery (pid : ℕ) (q : ℕ) (s : SimState) :
    cDis q (requestRecovery pid s).trace = cDis q s.trace
      ∧ cOpC q (requestRecovery pid s).trace = cOpC q s.trace
      ∧ cBlock q (requestRecovery pid s).trace = cBlock q s.trace
      ∧ cSatOpC q (requestRecovery pid s).trace = cSatOpC q s.trace := by
  rw [requestRecovery]
  split <;>
    simp [schedule, pushTrace, cDis, cOpC, cBlock, cSatOpC,
      List.countP_append, List.countP_cons, isDisOf, isOpCOf, isBlockOf, isSatOpCOf]

/-- The recovery release leaves those trace counts unchanged. -/
theorem trace_releaseRecovery (q : ℕ) (s : SimState) :
    cDis q (releaseRecovery s).trace = cDis q s.trace
      ∧ cOpC q (releaseRecovery s).trace = cOpC q s.trace
      ∧ cBlock q (releaseRecovery s).trace = cBlock q s.trace
      ∧ cSatOpC q (releaseRecovery s).trace = cSatOpC q s.trace := by
  cases hw : s.recovery.waiting <;>
    simp [releaseRecovery, hw, schedule, pushTrace, cDis, cOpC, cBlock, cSatOpC,
      List.countP_append, List.countP_cons, isDisOf, isOpCOf, isBlockOf, isSatOpCOf]

/-- A granted or queued preparation request adds one pipeline place for the
requesting patient. -/
theorem tokSum_requestPrep (pid : ℕ) (prio : ℤ) (q : ℕ) (s : SimState) :
    tokSum q (requestPrep pid prio s) = tokSum q s + if pid = q then 1 else 0 := by
  rw [requestPrep]
  split <;>
    simp [tokSum, schedule, pushTrace, countP_insertEv, countP_insertPrioW,
      isSpawnOf, isPrepEvOf, isOpEvOf, isRecEvOf] <;>
    omega

/-- The preparation release moves the best waiter, if any, into service:
pipeline places are unchanged. -/
theorem tokSum_releasePrep (q : ℕ) (s : SimState) :
    tokSum q (releasePrep s) = tokSum q s := by
  cases hw : s.prep.waiting with
  | nil => simp [releasePrep, hw, tokSum]
  | cons w ws =>
    simp [releasePrep, hw, tokSum, schedule, pushTrace, countP_insertEv,
      isSpawnOf, isPrepEvOf, isOpEvOf, isRecEvOf, List.countP_cons]
    omega

/-- A granted or queued theater request adds one pipeline place for the
requesting patient. -/
theorem tokSum_requestTheater (pid : ℕ) (q : ℕ) (s : SimState) :
    tokSum q (requestTheater pid s) = tokSum q s + if pid = q then 1 else 0 := by
  rw [requestTheater]
  split <;>
    simp [tokSum, schedule, pushTrace, countP_insertEv, List.countP_append,
      List.countP_cons, isSpawnOf, isPrepEvOf, isOpEvOf, isRecEvOf] <;>
    omega

/-- The theater release moves the head waiter, if any, into service:
pipeline places are unchanged. -/
theorem tokSum_releaseTheater (q : ℕ) (s : SimState) :
    tokSum q (releaseTheater s) = tokSum q s := by
  cases hw : s.theater.waiting with
  | nil => simp [releaseTheater, hw, tokSum]
  | cons w ws =>
    simp [releaseTheater, hw, tokSum, schedule, pushTrace, countP_insertEv,
      isSpawnOf, isPrepEvOf, isOpEvOf, isRecEvOf, List.countP_cons]
    omega

/-- A granted or queued recovery request adds one pipeline place for the
requesting patient. -/
theorem tokSum_requestRecovery (pid : ℕ) (q : ℕ) (s : SimState) :
    tokSum q (requestRecovery pid s) = tokSum q s + if pid = q then 1 else 0 := by
  rw [requestRecovery]
  split <;>
    simp [tokSum, schedule, pushTrace, countP_insertEv, List.countP_append,
      List.countP_cons, isSpawnOf, isPrepEvOf, isOpEvOf, isRecEvOf] <;>
    omega

/-- The recovery release moves the head waiter, if any, into service:
pipeline places are unchanged. -/
theorem tokSum_releaseRecovery (q : ℕ) (s : SimState) :
    tokSum q (releaseRecovery s) = tokSum q s := by
  cases hw : s.recovery.waiting with
  | nil => simp [releaseRecovery, hw, tokSum]
  | cons w ws =>
    simp [releaseRecovery, hw, tokSum, schedule, pushTrace, countP_insertEv,
      isSpawnOf, isPrepEvOf, isOpEvOf, isRecEvOf, List.countP_cons]
    omega

/-- A preparation request preserves occupancy with unchanged slack. -/
theorem useX_requestPrep (pid : ℕ) (prio : ℤ) (s : SimState) (dp dt dr : ℤ)
    (h : UseInvX s dp dt dr) : UseInvX (requestPrep pid prio s) dp dt dr := by
  obtain ⟨h1, h2, h3, h4, h5, h6⟩ := h
  rw [requestPrep]
  split
  · refine ⟨?_, ?_, ?_, ?_, ?_, ?_⟩ <;>
      simp [schedule, pushTrace, countP_insertEv, isPrepEvAny, isOpEvAny,
        isRecEvAny] <;>
      omega
  · exact ⟨h1, h2, h3, h4, h5, h6⟩

/-- A preparation release consumes one unit of preparation slack. -/
theorem useX_releasePrep (s : SimState) (dp dt dr : ℤ)
    (h : UseInvX s dp dt dr) : UseInvX (releasePrep s) (dp - 1) dt dr := by
  obtain ⟨h1, h2, h3, h4, h5, h6⟩ := h
  cases hw : s.prep.waiting with
  | nil =>
    simp only [releasePrep, hw]
    refine ⟨?_, h2, h3, ?_, h5, h6⟩ <;> simp <;> omega
  | cons w ws =>
    simp only [releasePrep, hw]
    refine ⟨?_, ?_, ?_, ?_, ?_, ?_⟩ <;>
      simp [schedule, pushTrace, countP_insertEv, isPrepEvAny, isOpEvAny,
        isRecEvAny] <;>
      omega

/-- A theater request preserves occupancy with unchanged slack. -/
theorem useX_requestTheater (pid : ℕ) (s : SimState) (dp dt dr : ℤ)
    (h : UseInvX s dp dt dr) : UseInvX (requestTheater pid s) dp dt dr := by
  obtain ⟨h1, h2, h3, h4, h5, h6⟩ := h
  rw [requestTheater]
  split
  · refine ⟨?_, ?_, ?_, ?_, ?_, ?_⟩ <;>
      simp [schedule, pushTrace, countP_insertEv, isPrepEvAny, isOpEvAny,
        isRecEvAny] <;>
      omega
  · exact ⟨h1, h2, h3, h4, h5, h6⟩

/-- A theater release consumes one unit of theater slack. -/
theorem useX_releaseTheater (s : SimState) (dp dt dr : ℤ)
    (h : UseInvX s dp dt dr) : UseInvX (releaseTheater s) dp (dt - 1) dr := by
  obtain ⟨h1, h2, h3, h4, h5, h6⟩ := h
  cases hw : s.theater.waiting with
  | nil =>
    simp only [releaseTheater, hw]
    refine ⟨h1, ?_, h3, h4, ?_, h6⟩ <;> simp <;> omega
  | cons w ws =>
    simp only [releaseTheater, hw]
    refine ⟨?_, ?_, ?_, ?_, ?_, ?_⟩ <;>
      simp [schedule, pushTrace, countP_insertEv, isPrepEvAny, isOpEvAny,
        isRecEvAny] <;>
      omega

/-- A recovery request preserves occupancy with unchanged slack. -/
theorem useX_requestRecovery (pid : ℕ) (s : SimState) (dp dt dr : ℤ)
    (h : UseInvX s dp dt dr) : UseInvX (requestRecovery pid s) dp dt dr := by
  obtain ⟨h1, h2, h3, h4, h5, h6⟩ := h
  rw [requestRecovery]
  split
  · refine ⟨?_, ?_, ?_, ?_, ?_, ?_⟩ <;>
      simp [schedule, pushTrace, countP_insertEv, isPrepEvAny, isOpEvAny,
        isRecEvAny] <;>
      omega
  · exact ⟨h1, h2, h3, h4, h5, h6⟩

/-- A recovery release consumes one unit of recovery slack. -/
theorem useX_releaseRecovery (s : SimState) (dp dt dr : ℤ)
    (h : UseInvX s dp dt dr) : UseInvX (releaseRecovery s) dp dt (dr - 1) := by
  obtain ⟨h1, h2, h3, h4, h5, h6⟩ := h
  cases hw : s.recovery.waiting with
  | nil =>
    simp only [releaseRecovery, hw]
    refine ⟨h1, h2, ?_, h4, h5, ?_⟩ <;> simp <;> omega
  | cons w ws =>
    simp only [releaseRecovery, hw]
    refine ⟨?_, ?_, ?_, ?_, ?_, ?_⟩ <;>
      simp [schedule, pushTrace, countP_insertEv, isPrepEvAny, isOpEvAny,
        isRecEvAny] <;>
      omega

/-- A preparation request neither adds nor removes generator wake-ups. -/
theorem gen_requestPrep (pid : ℕ) (prio : ℤ) (s : SimState) :
    (requestPrep pid prio s).events.countP isGenEv = s.events.countP isGenEv
      ∧ ∀ ev ∈ (requestPrep pid prio s).events, isGenEv ev = true → ev ∈ s.events := by
  rw [requestPrep]
  split
  · constructor
    · simp [schedule, pushTrace, countP_insertEv, isGenEv]
    · intro ev hev hgen
      simp only [schedule, pushTrace] at hev
      rcases mem_insertEv.mp hev with h | h
      · subst h
        simp [isGenEv] at hgen
      · exact h
  · exact ⟨rfl, fun ev hev _ => hev⟩

/-- A preparation release neither adds nor removes generator wake-ups. -/
theorem gen_releasePrep (s : SimState) :
    (releasePrep s).events.countP isGenEv = s.events.countP isGenEv
      ∧ ∀ ev ∈ (releasePrep s).events, isGenEv ev = true → ev ∈ s.events := by
  cases hw : s.prep.waiting with
  | nil =>
    simp only [releasePrep, hw]
    exact ⟨by simp, fun ev hev _ => hev⟩
  | cons w ws =>
    simp only [releasePrep, hw]
    constructor
    · simp [schedule, pushTrace, countP_insertEv, isGenEv]
    · intro ev hev hgen
      simp only [schedule, pushTrace] at hev
      rcases mem_insertEv.mp hev with h | h
      · subst h
        simp [isGenEv] at hgen
      · exact h

/-- A theater request neither adds nor removes generator wake-ups. -/
theorem gen_requestTheater (pid : ℕ) (s : SimState) :
    (requestTheater pid s).events.countP isGenEv = s.events.countP isGenEv
      ∧ ∀ ev ∈ (requestTheater pid s).events, isGenEv ev = true → ev ∈ s.events := by
  rw [requestTheater]
  split
  · constructor
    · simp [schedule, pushTrace, countP_insertEv, isGenEv]
    · intro ev hev hgen
      simp only [schedule, pushTrace] at hev
      rcases mem_insertEv.mp hev with h | h
      · subst h
        simp [isGenEv] at hgen
      · exact h
  · exact ⟨rfl, fun ev hev _ => hev⟩

/-- A theater release neither adds nor removes generator wake-ups. -/
theorem gen_releaseTheater (s : SimState) :
    (releaseTheater s).events.countP isGenEv = s.events.countP isGenEv
      ∧ ∀ ev ∈ (releaseTheater s).events, isGenEv ev = true → ev ∈ s.events := by
  cases hw : s.theater.waiting with
  | nil =>
    simp only [releaseTheater, hw]
    exact ⟨by simp, fun ev hev _ => hev⟩
  | cons w ws =>
    simp only [releaseTheater, hw]
    constructor
    · simp [schedule, pushTrace, countP_insertEv, isGenEv]
    · intro ev hev hgen
      simp only [schedule, pushTrace] at hev
      rcases mem_insertEv.mp hev with h | h
      · subst h
        simp [isGenEv] at hgen
      · exact h

/-- A recovery request neither adds nor removes generator wake-ups. -/
theorem gen_requestRecovery (pid : ℕ) (s : SimState) :
    (requestRecovery pid s).events.countP isGenEv = s.events.countP isGenEv
      ∧ ∀ ev ∈ (requestRecovery pid s).events, isGenEv ev = true → ev ∈ s.events := by
  rw [requestRecovery]
  split
  · constructor
    · simp [schedule, pushTrace, countP_insertEv, isGenEv]
    · intro ev hev hgen
      simp only [schedule, pushTrace] at hev
      rcases mem_insertEv.mp hev with h | h
      · subst h
        simp [isGenEv] at hgen
      · exact h
  · exact ⟨rfl, fun ev hev _ => hev⟩

/-- A recovery release neither adds nor removes generator wake-ups. -/
theorem gen_releaseRecovery (s : SimState) :
    (releaseRecovery s).events.countP isGenEv = s.events.countP isGenEv
      ∧ ∀ ev ∈ (releaseRecovery s).events, isGenEv ev = true → ev ∈ s.events := by
  cases hw : s.recovery.waiting with
  | nil =>
    simp only [releaseRecovery, hw]
    exact ⟨by simp, fun ev hev _ => hev⟩
  | cons w ws =>
    simp only [releaseRecovery, hw]
    constructor
    · simp [schedule, pushTrace, countP_insertEv, isGenEv]
    · intro ev hev hgen
      simp only [schedule, pushTrace] at hev
      rcases mem_insertEv.mp hev with h | h
      · subst h
        simp [isGenEv] at hgen
      · exact h

/-- Drawing from a nonnegative stream gives a nonnegative value. -/
theorem draw_fst_nonneg {l : List ℚ} (h : nnQ l) : 0 ≤ (draw l).1 := by
  cases l with
  | nil => simp [draw]
  | cons x xs => exact h x (List.mem_cons_self x xs)

/-- The remainder of a nonnegative stream is nonnegative. -/
theorem draw_snd_nn {l : List ℚ} (h : nnQ l) : nnQ (draw l).2 := by
  cases l with
  | nil => simp [draw, nnQ]
  | cons x xs => exact fun q hq => h q (List.mem_cons_of_mem x hq)

/-- Every primitive keeps the duration streams nonnegative. -/
theorem nn_requestPrep (pid : ℕ) (prio : ℤ) (s : SimState) (h : NN s) :
    NN (requestPrep pid prio s) := by
  obtain ⟨h1, h2, h3, h4⟩ := h
  rw [requestPrep]
  split
  · exact ⟨h1, draw_snd_nn h2, h3, h4⟩
  · exact ⟨h1, h2, h3, h4⟩

/-- The preparation release keeps the duration streams nonnegative. -/
theorem nn_releasePrep (s : SimState) (h : NN s) : NN (releasePrep s) := by
  obtain ⟨h1, h2, h3, h4⟩ := h
  cases hw : s.prep.waiting with
  | nil =>
    simp only [releasePrep, hw]
    exact ⟨h1, h2, h3, h4⟩
  | cons w ws =>
    simp only [releasePrep, hw]
    exact ⟨h1, draw_snd_nn h2, h3, h4⟩

/-- The theater request keeps the duration streams nonnegative. -/
theorem nn_requestTheater (pid : ℕ) (s : SimState) (h : NN s) :
    NN (requestTheater pid s) := by
  obtain ⟨h1, h2, h3, h4⟩ := h
  rw [requestTheater]
  split
  · exact ⟨h1, h2, draw_snd_nn h3, h4⟩
  · exact ⟨h1, h2, h3, h4⟩

/-- The theater release keeps the duration streams nonnegative. -/
theorem nn_releaseTheater (s : SimState) (h : NN s) : NN (releaseTheater s) := by
  obtain ⟨h1, h2, h3, h4⟩ := h
  cases hw : s.theater.waiting with
  | nil =>
    simp only [releaseTheater, hw]
    exact ⟨h1, h2, h3, h4⟩
  | cons w ws =>
    simp only [releaseTheater, hw]
    exact ⟨h1, h2, draw_snd_nn h3, h4⟩

/-- The recovery request keeps the duration streams nonnegative. -/
theorem nn_requestRecovery (pid : ℕ) (s : SimState) (h : NN s) :
    NN (requestRecovery pid s) := by
  obtain ⟨h1, h2, h3, h4⟩ := h
  rw [requestRecovery]
  split
  · exact ⟨h1, h2, h3, draw_snd_nn h4⟩
  · exact ⟨h1, h2, h3, h4⟩

/-- The recovery release keeps the duration streams nonnegative. -/
theorem nn_releaseRecovery (s : SimState) (h : NN s) : NN (releaseRecovery s) := by
  obtain ⟨h1, h2, h3, h4⟩ := h
  cases hw : s.recovery.waiting with
  | nil =>
    simp only [releaseRecovery, hw]
    exact ⟨h1, h2, h3, h4⟩
  | cons w ws =>
    simp only [releaseRecovery, hw]
    exact ⟨h1, h2, h3, draw_snd_nn h4⟩

/-- The preparation request keeps the event queue time-sorted. -/
theorem sorted_requestPrep (pid : ℕ) (prio : ℤ) (s : SimState)
    (h : EvSorted s) : EvSorted (requestPrep pid prio s) := by
  rw [requestPrep]
  split
  · exact pairwise_insertEv h
  · exact h

/-- The preparation release keeps the event queue time-sorted. -/
theorem sorted_releasePrep (s : SimState) (h : EvSorted s) :
    EvSorted (releasePrep s) := by
  cases hw : s.prep.waiting with
  | nil =>
    simp only [releasePrep, hw]
    exact h
  | cons w ws =>
    simp only [releasePrep, hw]
    exact pairwise_insertEv h

/-- The theater request keeps the event queue time-sorted. -/
theorem sorted_requestTheater (pid : ℕ) (s : SimState) (h : EvSorted s) :
    EvSorted (requestTheater pid s) := by
  rw [requestTheater]
  split
  · exact pairwise_insertEv h
  · exact h

/-- The theater release keeps the event queue time-sorted. -/
theorem sorted_releaseTheater (s : SimState) (h : EvSorted s) :
    EvSorted (releaseTheater s) := by
  cases hw : s.theater.waiting with
  | nil =>
    simp only [releaseTheater, hw]
    exact h
  | cons w ws =>
    simp only [releaseTheater, hw]
    exact pairwise_insertEv h

/-- The recovery request keeps the event queue time-sorted. -/
theorem sorted_requestRecovery (pid : ℕ) (s : SimState) (h : EvSorted s) :
    EvSorted (requestRecovery pid s) := by
  rw [requestRecovery]
  split
  · exact pairwise_insertEv h
  · exact h

/-- The recovery release keeps the event queue time-sorted. -/
theorem sorted_releaseRecovery (s : SimState) (h : EvSorted s) :
    EvSorted (releaseRecovery s) := by
  cases hw : s.recovery.waiting with
  | nil =>
    simp only [releaseRecovery, hw]
    exact h
  | cons w ws =>
    simp only [releaseRecovery, hw]
    exact pairwise_insertEv h

/-- The preparation request schedules only at or after the current clock. -/
theorem timeLB_requestPrep (pid : ℕ) (prio : ℤ) (s : SimState)
    (hlb : EvTimeLB s) (hnn : NN s) : EvTimeLB (requestPrep pid prio s) := by
  rw [requestPrep]
  split
  · intro ev hev
    simp only [schedule, pushTrace] at hev ⊢
    rcases mem_insertEv.mp hev with h | h
    · subst h
      have := draw_fst_nonneg hnn.2.1
      simp only
      linarith
    · exact hlb ev h
  · exact fun ev hev => hlb ev hev

/-- The preparation release schedules only at or after the current clock. -/
theorem timeLB_releasePrep (s : SimState) (hlb : EvTimeLB s) (hnn : NN s) :
    EvTimeLB (releasePrep s) := by
  cases hw : s.prep.waiting with
  | nil =>
    simp only [releasePrep, hw]
    exact fun ev hev => hlb ev hev
  | cons w ws =>
    simp only [releasePrep, hw]
    intro ev hev
    simp only [schedule, pushTrace] at hev ⊢
    rcases mem_insertEv.mp hev with h | h
    · subst h
      have := draw_fst_nonneg hnn.2.1
      simp only
      linarith
    · exact hlb ev h

/-- The theater request schedules only at or after the current clock. -/
theorem timeLB_requestTheater (pid : ℕ) (s : SimState)
    (hlb : EvTimeLB s) (hnn : NN s) : EvTimeLB (requestTheater pid s) := by
  rw [requestTheater]
  split
  · intro ev hev
    simp only [schedule, pushTrace] at hev ⊢
    rcases mem_insertEv.mp hev with h | h
    · subst h
      have := draw_fst_nonneg hnn.2.2.1
      simp only
      linarith
    · exact hlb ev h
  · exact fun ev hev => hlb ev hev

/-- The theater release schedules only at or after the current clock. -/
theorem timeLB_releaseTheater (s : SimState) (hlb : EvTimeLB s) (hnn : NN s) :
    EvTimeLB (releaseTheater s) := by
  cases hw : s.theater.waiting with
  | nil =>
    simp only [releaseTheater, hw]
    exact fun ev hev => hlb ev hev
  | cons w ws =>
    simp only [releaseTheater, hw]
    intro ev hev
    simp only [schedule, pushTrace] at hev ⊢
    rcases mem_insertEv.mp hev with h | h
    · subst h
      have := draw_fst_nonneg hnn.2.2.1
      simp only
      linarith
    · exact hlb ev h

/-- The recovery request schedules only at or after the current clock. -/
theorem timeLB_requestRecovery (pid : ℕ) (s : SimState)
    (hlb : EvTimeLB s) (hnn : NN s) : EvTimeLB (requestRecovery pid s) := by
  rw [requestRecovery]
  split
  · intro ev hev
    simp only [schedule, pushTrace] at hev ⊢
    rcases mem_insertEv.mp hev with h | h
    · subst h
      have := draw_fst_nonneg hnn.2.2.2
      simp only
      linarith
    · exact hlb ev h
  · exact fun ev hev => hlb ev hev

/-- The recovery release schedules only at or after the current clock. -/
theorem timeLB_releaseRecovery (s : SimState) (hlb : EvTimeLB s) (hnn : NN s) :
    EvTimeLB (releaseRecovery s) := by
  cases hw : s.recovery.waiting with
  | nil =>
    simp only [releaseRecovery, hw]
    exact fun ev hev => hlb ev hev
  | cons w ws =>
    simp only [releaseRecovery, hw]
    intro ev hev
    simp only [schedule, pushTrace] at hev ⊢
    rcases mem_insertEv.mp hev with h | h
    · subst h
      have := draw_fst_nonneg hnn.2.2.2
      simp only
      linarith
    · exact hlb ev h

/-- The preparation request preserves the busy-start pairing: it changes
neither the theater bookkeeping nor the pending end-of-operation events,
and only appends to the trace. -/
theorem thPair_requestPrep (pid : ℕ) (prio : ℤ) (s : SimState)
    (h : ThPair s) : ThPair (requestPrep pid prio s) := by
  rw [requestPrep]
  split
  · intro t' e' q hm
    simp only [schedule, pushTrace] at hm ⊢
    rcases mem_insertEv.mp hm with hx | hx
    · simp at hx
    · obtain ⟨b, hb1, hb2, hb3⟩ := h t' e' q hx
      exact ⟨b, hb1, List.mem_append_left _ hb2, hb3⟩
  · exact h

/-- The preparation release preserves the busy-start pairing. -/
theorem thPair_releasePrep (s : SimState) (h : ThPair s) :
    ThPair (releasePrep s) := by
  cases hw : s.prep.waiting with
  | nil =>
    simp only [releasePrep, hw]
    exact h
  | cons w ws =>
    simp only [releasePrep, hw]
    intro t' e' q hm
    simp only [schedule, pushTrace] at hm ⊢
    rcases mem_insertEv.mp hm with hx | hx
    · simp at hx
    · obtain ⟨b, hb1, hb2, hb3⟩ := h t' e' q hx
      exact ⟨b, hb1, List.mem_append_left _ hb2, hb3⟩

/-- The recovery request preserves the busy-start pairing. -/
theorem thPair_requestRecovery (pid : ℕ) (s : SimState)
    (h : ThPair s) : ThPair (requestRecovery pid s) := by
  rw [requestRecovery]
  split
  · intro t' e' q hm
    simp only [schedule, pushTrace] at hm ⊢
    rcases mem_insertEv.mp hm with hx | hx
    · simp at hx
    · obtain ⟨b, hb1, hb2, hb3⟩ := h t' e' q hx
      exact ⟨b, hb1, List.mem_append_left _ hb2, hb3⟩
  · exact h

/-- The recovery release preserves the busy-start pairing. -/
theorem thPair_releaseRecovery (s : SimState) (h : ThPair s) :
    ThPair (releaseRecovery s) := by
  cases hw : s.recovery.waiting with
  | nil =>
    simp only [releaseRecovery, hw]
    exact h
  | cons w ws =>
    simp only [releaseRecovery, hw]
    intro t' e' q hm
    simp only [schedule, pushTrace] at hm ⊢
    rcases mem_insertEv.mp hm with hx | hx
    · simp at hx
    · obtain ⟨b, hb1, hb2, hb3⟩ := h t' e' q hx
      exact ⟨b, hb1, List.mem_append_left _ hb2, hb3⟩

/-- Appending a trace entry does not change occupancy. -/
theorem useX_pushTrace (s : SimState) (e : TraceEv) (dp dt dr : ℤ)
    (h : UseInvX s dp dt dr) : UseInvX (pushTrace s e) dp dt dr := by
  simpa [UseInvX, pushTrace] using h

/-- Updating the two generator streams does not change occupancy. -/
theorem useX_setStreams (s : SimState) (a b : List ℚ) (dp dt dr : ℤ)
    (h : UseInvX s dp dt dr) : UseInvX { s with rand := a, ia := b } dp dt dr := by
  simpa [UseInvX] using h

/-- Clearing or setting theater_busy_start does not change occupancy. -/
theorem useX_setBusy (s : SimState) (o : Option ℚ) (dp dt dr : ℤ)
    (h : UseInvX s dp dt dr) : UseInvX { s with theater_busy_start := o } dp dt dr := by
  simpa [UseInvX] using h

/-- Appending a blocked time does not change occupancy. -/
theorem useX_setBlocked (s : SimState) (l : List ℚ) (dp dt dr : ℤ)
    (h : UseInvX s dp dt dr) : UseInvX { s with theater_blocked_times := l } dp dt dr := by
  simpa [UseInvX] using h

/-- Scheduling a generator wake-up does not change occupancy. -/
theorem useX_scheduleGen (s : SimState) (t : ℚ) (sp : Option (ℕ × ℤ)) (n : ℕ)
    (dp dt dr : ℤ) (h : UseInvX s dp dt dr) :
    UseInvX (schedule s t (.genTick sp n)) dp dt dr := by
  obtain ⟨h1, h2, h3, h4, h5, h6⟩ := h
  refine ⟨?_, ?_, ?_, ?_, ?_, ?_⟩ <;>
    simp [schedule, countP_insertEv, isPrepEvAny, isOpEvAny, isRecEvAny] <;>
    omega

/-- The preparation release consumes exactly the one unit of slack left by
the popped end-of-preparation event. -/
theorem useX_releasePrep0 (s : SimState) (dt dr : ℤ) (h : UseInvX s 1 dt dr) :
    UseInvX (releasePrep s) 0 dt dr := by
  have h2 := useX_releasePrep s 1 dt dr h
  simpa using h2

/-- The theater release consumes exactly the one unit of slack left by the
popped end-of-operation event. -/
theorem useX_releaseTheater0 (s : SimState) (dp dr : ℤ) (h : UseInvX s dp 1 dr) :
    UseInvX (releaseTheater s) dp 0 dr := by
  have h2 := useX_releaseTheater s dp 1 dr h
  simpa using h2

/-- The recovery release consumes exactly the one unit of slack left by the
popped end-of-recovery event. -/
theorem useX_releaseRecovery0 (s : SimState) (dp dt : ℤ) (h : UseInvX s dp dt 1) :
    UseInvX (releaseRecovery s) dp dt 0 := by
  have h2 := useX_releaseRecovery s dp dt 1 h
  simpa using h2

/-- One scheduler step preserves slack-free occupancy: this is the
acquire/release protocol of the three pools. -/
theorem useInv_step (s : SimState) (h : UseInvX s 0 0 0) :
    UseInvX (step s) 0 0 0 := by
  cases hev : s.events with
  | nil =>
    rw [step_nil s hev]
    exact h
  | cons hd rest =>
    obtain ⟨t, e, a⟩ := hd
    by_cases hlt : t < s.duration
    · rw [step_head s t e a rest hev hlt]
      obtain ⟨h1, h2, h3, h4, h5, h6⟩ := h
      rw [hev] at h1 h2 h3
      cases a with
      | genTick sp n =>
        simp [List.countP_cons, isPrepEvAny, isOpEvAny, isRecEvAny] at h1 h2 h3
        have h' : UseInvX { s with now := t, events := rest } 0 0 0 := by
          refine ⟨?_, ?_, ?_, ?_, ?_, ?_⟩ <;> simp <;> omega
        simp only [exec, handleGenTick, startPatient]
        cases sp with
        | none =>
          exact useX_scheduleGen _ _ _ _ _ _ _ (useX_setStreams _ _ _ _ _ _ h')
        | some ppr =>
          obtain ⟨p, pr⟩ := ppr
          exact useX_requestPrep _ _ _ _ _ _
            (useX_pushTrace _ _ _ _ _
              (useX_scheduleGen _ _ _ _ _ _ _ (useX_setStreams _ _ _ _ _ _ h')))
      | prepDone pid =>
        simp [List.countP_cons, isPrepEvAny, isOpEvAny, isRecEvAny] at h1 h2 h3
        have h' : UseInvX { s with now := t, events := rest } 1 0 0 := by
          refine ⟨?_, ?_, ?_, ?_, ?_, ?_⟩ <;> simp <;> omega
        simp only [exec, handlePrepDone]
        exact useX_requestTheater _ _ _ _ _ (useX_releasePrep0 _ _ _ h')
      | opDone pid =>
        simp [List.countP_cons, isPrepEvAny, isOpEvAny, isRecEvAny] at h1 h2 h3
        have h' : UseInvX { s with now := t, events := rest } 0 1 0 := by
          refine ⟨?_, ?_, ?_, ?_, ?_, ?_⟩ <;> simp <;> omega
        simp only [exec, handleOpDone]
        split
        · exact useX_requestRecovery _ _ _ _ _ (useX_pushTrace _ _ _ _ _
            (useX_releaseTheater0 _ _ _ (useX_pushTrace _ _ _ _ _
              (useX_setBusy _ _ _ _ _ (useX_pushTrace _ _ _ _ _
                (useX_setBlocked _ _ _ _ _ (useX_pushTrace _ _ _ _ _ h')))))))
        · exact useX_requestRecovery _ _ _ _ _ (useX_pushTrace _ _ _ _ _
            (useX_releaseTheater0 _ _ _ (useX_pushTrace _ _ _ _ _
              (useX_setBusy _ _ _ _ _ (useX_pushTrace _ _ _ _ _ h')))))
      | recDone pid =>
        simp [List.countP_cons, isPrepEvAny, isOpEvAny, isRecEvAny] at h1 h2 h3
        have h' : UseInvX { s with now := t, events := rest } 0 0 1 := by
          refine ⟨?_, ?_, ?_, ?_, ?_, ?_⟩ <;> simp <;> omega
        simp only [exec, handleRecDone]
        exact useX_releaseRecovery0 _ _ _ (useX_pushTrace _ _ _ _ _ h')
    · rw [step_horizon s t e a rest hev hlt]
      exact h

/-- One scheduler step keeps the duration streams nonnegative. -/
theorem nn_step (s : SimState) (h : NN s) : NN (step s) := by
  cases hev : s.events with
  | nil =>
    rw [step_nil s hev]
    exact h
  | cons hd rest =>
    obtain ⟨t, e, a⟩ := hd
    by_cases hlt : t < s.duration
    · rw [step_head s t e a rest hev hlt]
      obtain ⟨h1, h2, h3, h4⟩ := h
      have h' : NN { s with now := t, events := rest } := ⟨h1, h2, h3, h4⟩
      cases a with
      | genTick sp n =>
        simp only [exec, handleGenTick, startPatient]
        cases sp with
        | none =>
          exact ⟨draw_snd_nn h'.1, h'.2.1, h'.2.2.1, h'.2.2.2⟩
        | some ppr =>
          obtain ⟨p, pr⟩ := ppr
          exact nn_requestPrep _ _ _
            ⟨draw_snd_nn h'.1, h'.2.1, h'.2.2.1, h'.2.2.2⟩
      | prepDone pid =>
        exact nn_requestTheater _ _ (nn_releasePrep _ h')
      | opDone pid =>
        simp only [exec, handleOpDone]
        split
        · exact nn_requestRecovery _ _ (nn_releaseTheater _ h')
        · exact nn_requestRecovery _ _ (nn_releaseTheater _ h')
      | recDone pid =>
        exact nn_releaseRecovery _ h'
    · rw [step_horizon s t e a rest hev hlt]
      exact h

/-- Appending a trace entry changes no pipeline place. -/
theorem tokSum_pushTrace (q : ℕ) (s : SimState) (e : TraceEv) :
    tokSum q (pushTrace s e) = tokSum q s := rfl

/-- Updating the generator streams changes no pipeline place. -/
theorem tokSum_setStreams (q : ℕ) (s : SimState) (a b : List ℚ) :
    tokSum q { s with rand := a, ia := b } = tokSum q s := rfl

/-- Scheduling a generator wake-up with a pending spawn adds one pipeline
place for the patient to be spawned. -/
theorem tokSum_scheduleGen (q : ℕ) (s : SimState) (t : ℚ) (p : ℕ) (pr : ℤ)
    (n : ℕ) :
    tokSum q (schedule s t (.genTick (some (p, pr)) n))
      = tokSum q s + if p = q then 1 else 0 := by
  simp [tokSum, schedule, countP_insertEv, isSpawnOf, isPrepEvOf, isOpEvOf,
    isRecEvOf]
  omega

/-- Advancing the clock and popping events leave the trace unchanged. -/
theorem cDis_setNowEvents (q : ℕ) (s : SimState) (tn : ℚ)
    (l : List (ℚ × ℕ × Act)) :
    cDis q ({ s with now := tn, events := l }).trace = cDis q s.trace := rfl

/-- Popping the head event removes exactly the pipeline places that event
carries. -/
theorem tokSum_pop (q : ℕ) (s : SimState) (t tn : ℚ) (e : ℕ) (a : Act)
    (rest : List (ℚ × ℕ × Act)) (hev : s.events = (t, e, a) :: rest) :
    tokSum q s = tokSum q { s with now := tn, events := rest }
      + ((if isSpawnOf q (t, e, a) then 1 else 0)
        + (if isPrepEvOf q (t, e, a) then 1 else 0)
        + (if isOpEvOf q (t, e, a) then 1 else 0)
        + (if isRecEvOf q (t, e, a) then 1 else 0)) := by
  simp [tokSum, hev, List.countP_cons]
  omega

/-- The discharge count is untouched by every request and release. -/
theorem cDis_handlePrepDone (pid q : ℕ) (s : SimState) :
    cDis q (handlePrepDone pid s).trace = cDis q s.trace := by
  rw [handlePrepDone, (trace_requestTheater pid q (releasePrep s)).1,
    (trace_releasePrep q s).1]

/-- Pipeline places through the end of a preparation: the patient moves to
the theater side, the best prep waiter, if any, moves into service. -/
theorem tokSum_handlePrepDone (pid q : ℕ) (s : SimState) :
    tokSum q (handlePrepDone pid s) = tokSum q s + if pid = q then 1 else 0 := by
  rw [handlePrepDone, tokSum_requestTheater, tokSum_releasePrep]

/-- The trace of a pushTrace. -/
theorem trace_pushTrace (s : SimState) (e : TraceEv) :
    (pushTrace s e).trace = s.trace ++ [e] := rfl

/-- Scheduling leaves the trace unchanged. -/
theorem trace_schedule (s : SimState) (t : ℚ) (a : Act) :
    (schedule s t a).trace = s.trace := rfl

/-- Appending a trace entry leaves the event queue unchanged. -/
theorem events_pushTrace (s : SimState) (e : TraceEv) :
    (pushTrace s e).events = s.events := rfl

/-- Clearing or setting theater_busy_start leaves the trace unchanged. -/
theorem trace_setBusy (s : SimState) (o : Option ℚ) :
    ({ s with theater_busy_start := o }).trace = s.trace := rfl

/-- Appending a blocked time leaves the trace unchanged. -/
theorem trace_setBlocked (s : SimState) (l : List ℚ) :
    ({ s with theater_blocked_times := l }).trace = s.trace := rfl

/-- Discharge count over a one-event extension. -/
theorem cDis_append1 (q : ℕ) (tr : List TraceEv) (e : TraceEv) :
    cDis q (tr ++ [e]) = cDis q tr + if isDisOf q e then 1 else 0 := by
  simp [cDis, List.countP_append, List.countP_cons]

/-- Completion count over a one-event extension. -/
theorem cOpC_append1 (q : ℕ) (tr : List TraceEv) (e : TraceEv) :
    cOpC q (tr ++ [e]) = cOpC q tr + if isOpCOf q e then 1 else 0 := by
  simp [cOpC, List.countP_append, List.countP_cons]

/-- Blocking count over a one-event extension. -/
theorem cBlock_append1 (q : ℕ) (tr : List TraceEv) (e : TraceEv) :
    cBlock q (tr ++ [e]) = cBlock q tr + if isBlockOf q e then 1 else 0 := by
  simp [cBlock, List.countP_append, List.countP_cons]

/-- Saturated-completion count over a one-event extension. -/
theorem cSatOpC_append1 (q : ℕ) (tr : List TraceEv) (e : TraceEv) :
    cSatOpC q (tr ++ [e]) = cSatOpC q tr + if isSatOpCOf q e then 1 else 0 := by
  simp [cSatOpC, List.countP_append, List.countP_cons]

/-- Pipeline places ignore theater_busy_start. -/
theorem tokSum_setBusy (q : ℕ) (s : SimState) (o : Option ℚ) :
    tokSum q ({ s with theater_busy_start := o }) = tokSum q s := rfl

/-- Pipeline places ignore the blocked-times list. -/
theorem tokSum_setBlocked (q : ℕ) (s : SimState) (l : List ℚ) :
    tokSum q ({ s with theater_blocked_times := l }) = tokSum q s := rfl

/-- The discharge count is untouched by the end of an operation. -/
theorem cDis_handleOpDone (pid q : ℕ) (s : SimState) :
    cDis q (handleOpDone pid s).trace = cDis q s.trace := by
  rw [handleOpDone]
  simp only
  rw [(trace_requestRecovery pid q _).1, trace_pushTrace, cDis_append1,
    (trace_releaseTheater q _).1, trace_pushTrace, cDis_append1, trace_setBusy]
  split
  · rw [trace_pushTrace, cDis_append1, trace_setBlocked, trace_pushTrace,
      cDis_append1]
    simp [isDisOf]
  · rw [trace_pushTrace, cDis_append1]
    simp [isDisOf]

/-- Pipeline places through the end of an operation. -/
theorem tokSum_handleOpDone (pid q : ℕ) (s : SimState) :
    tokSum q (handleOpDone pid s) = tokSum q s + if pid = q then 1 else 0 := by
  rw [handleOpDone]
  simp only
  rw [tokSum_requestRecovery, tokSum_pushTrace, tokSum_releaseTheater,
    tokSum_pushTrace, tokSum_setBusy]
  split
  · rw [tokSum_pushTrace, tokSum_setBlocked, tokSum_pushTrace]
  · rw [tokSum_pushTrace]

/-- Ends of recovery add one discharge for the patient and move the head
recovery waiter, if any, into service. -/
theorem cDis_handleRecDone (pid q : ℕ) (s : SimState) :
    cDis q (handleRecDone pid s).trace
      = cDis q s.trace + if pid = q then 1 else 0 := by
  rw [handleRecDone, (trace_releaseRecovery q _).1]
  simp [pushTrace, cDis, List.countP_append, List.countP_cons, isDisOf]

/-- Pipeline places through the end of a recovery. -/
theorem tokSum_handleRecDone (pid q : ℕ) (s : SimState) :
    tokSum q (handleRecDone pid s) = tokSum q s := by
  rw [handleRecDone, tokSum_releaseRecovery, tokSum_pushTrace]

/-- Pipeline places through a generator wake-up with no pending spawn. -/
theorem tokSum_handleGenTick_none (q n : ℕ) (s : SimState) :
    tokSum q (handleGenTick none n s) = tokSum q s + if n = q then 1 else 0 := by
  simp only [handleGenTick]
  rw [tokSum_scheduleGen, tokSum_setStreams]

/-- Pipeline places through a generator wake-up spawning patient p. -/
theorem tokSum_handleGenTick_some (q n p : ℕ) (pr : ℤ) (s : SimState) :
    tokSum q (handleGenTick (some (p, pr)) n s)
      = tokSum q s + (if n = q then 1 else 0) + (if p = q then 1 else 0) := by
  simp only [handleGenTick, startPatient]
  rw [tokSum_requestPrep, tokSum_pushTrace, tokSum_scheduleGen, tokSum_setStreams]

/-- The discharge count is untouched by a generator wake-up. -/
theorem cDis_handleGenTick (sp : Option (ℕ × ℤ)) (n q : ℕ) (s : SimState) :
    cDis q (handleGenTick sp n s).trace = cDis q s.trace := by
  simp only [handleGenTick, startPatient]
  cases sp with
  | none => rw [trace_schedule]
  | some ppr =>
    rw [(trace_requestPrep ppr.1 ppr.2 q _).1, trace_pushTrace, cDis_append1,
      trace_schedule]
    simp [isDisOf]

/-- Generator wake-ups through a generator wake-up: the processed one is
replaced by exactly one new wake-up carrying the next spawn. -/
theorem gen_handleGenTick (sp : Option (ℕ × ℤ)) (n : ℕ) (s : SimState) :
    (handleGenTick sp n s).events.countP isGenEv = s.events.countP isGenEv + 1
      ∧ ∀ ev ∈ (handleGenTick sp n s).events, isGenEv ev = true →
          ev.2.2 = Act.genTick (some (n, genPrio s)) (n + 1) ∨ ev ∈ s.events := by
  simp only [handleGenTick, startPatient]
  cases sp with
  | none =>
    constructor
    · simp [schedule, countP_insertEv, isGenEv]
    · intro ev hev hg
      rcases mem_insertEv.mp hev with hx | hx
      · subst hx
        left
        rfl
      · right
        exact hx
  | some ppr =>
    constructor
    · rw [(gen_requestPrep ppr.1 ppr.2 _).1]
      simp [schedule, countP_insertEv, isGenEv, pushTrace]
    · intro ev hev hg
      have hx := (gen_requestPrep ppr.1 ppr.2 _).2 ev hev hg
      rcases mem_insertEv.mp hx with hy | hy
      · subst hy
        left
        rfl
      · right
        exact hy

/-- Generator wake-ups are untouched by the end of a preparation. -/
theorem gen_handlePrepDone (pid : ℕ) (s : SimState) :
    (handlePrepDone pid s).events.countP isGenEv = s.events.countP isGenEv
      ∧ ∀ ev ∈ (handlePrepDone pid s).events, isGenEv ev = true → ev ∈ s.events := by
  constructor
  · rw [handlePrepDone, (gen_requestTheater pid _).1, (gen_releasePrep _).1]
  · intro ev hev hg
    exact (gen_releasePrep s).2 ev
      ((gen_requestTheater pid _).2 ev hev hg) hg

/-- Generator wake-ups are untouched by the end of an operation. -/
theorem gen_handleOpDone (pid : ℕ) (s : SimState) :
    (handleOpDone pid s).events.countP isGenEv = s.events.countP isGenEv
      ∧ ∀ ev ∈ (handleOpDone pid s).events, isGenEv ev = true → ev ∈ s.events := by
  rw [handleOpDone]
  simp only
  split
  · constructor
    · rw [(gen_requestRecovery pid _).1, events_pushTrace,
        (gen_releaseTheater _).1, events_pushTrace]
      rfl
    · intro ev hev hg
      have h1 := (gen_requestRecovery pid _).2 ev hev hg
      rw [events_pushTrace] at h1
      have h2 := (gen_releaseTheater _).2 ev h1 hg
      rw [events_pushTrace] at h2
      exact h2
  · constructor
    · rw [(gen_requestRecovery pid _).1, events_pushTrace,
        (gen_releaseTheater _).1, events_pushTrace]
      rfl
    · intro ev hev hg
      have h1 := (gen_requestRecovery pid _).2 ev hev hg
      rw [events_pushTrace] at h1
      have h2 := (gen_releaseTheater _).2 ev h1 hg
      rw [events_pushTrace] at h2
      exact h2

/-- Generator wake-ups are untouched by the end of a recovery. -/
theorem gen_handleRecDone (pid : ℕ) (s : SimState) :
    (handleRecDone pid s).events.countP isGenEv = s.events.countP isGenEv
      ∧ ∀ ev ∈ (handleRecDone pid s).events, isGenEv ev = true → ev ∈ s.events := by
  constructor
  · rw [handleRecDone, (gen_releaseRecovery _).1, events_pushTrace]
  · intro ev hev hg
    have h1 := (gen_releaseRecovery _).2 ev hev hg
    rw [events_pushTrace] at h1
    exact h1

/-- One scheduler step preserves the token invariant: every patient below
the generator's next id occupies exactly one pipeline place or is
discharged, and exactly one generator wake-up is pending. -/
theorem tokInv_step (s : SimState) (h : TokInv s) : TokInv (step s) := by
  obtain ⟨sp0, N, hc, hpay, hlink, htok⟩ := h
  cases hev : s.events with
  | nil =>
    rw [step_nil s hev]
    exact ⟨sp0, N, hc, hpay, hlink, htok⟩
  | cons hd rest =>
    obtain ⟨t, e, a⟩ := hd
    by_cases hlt : t < s.duration
    · rw [step_head s t e a rest hev hlt]
      cases a with
      | genTick sp n =>
        have hpayhd : Act.genTick sp n = Act.genTick sp0 N :=
          hpay (t, e, .genTick sp n) (hev ▸ List.mem_cons_self _ _) rfl
        have hsp0 : sp = sp0 := by
          injection hpayhd with h1 h2
        have hN : n = N := by
          injection hpayhd with h1 h2
        subst hsp0
        subst hN
        have hcrest : rest.countP isGenEv = 0 := by
          have hone : isGenEv (t, e, Act.genTick sp n) = true := rfl
          rw [hev, List.countP_cons] at hc
          simp only [hone, eq_self_iff_true, if_true] at hc
          omega
        simp only [exec]
        cases sp with
        | none =>
          refine ⟨some (n, genPrio { s with now := t, events := rest }), n + 1,
            ?_, ?_, ?_, ?_⟩
          · rw [(gen_handleGenTick none n _).1]
            simp [hcrest]
          · intro ev hev' hg
            rcases (gen_handleGenTick none n _).2 ev hev' hg with hx | hx
            · exact hx
            · exact absurd hg (by simpa using List.countP_eq_zero.mp hcrest ev hx)
          · intro p pr hsp
            injection hsp with h1
            injection h1 with h2 h3
            omega
          · intro q
            rw [tokSum_handleGenTick_none, cDis_handleGenTick, cDis_setNowEvents]
            have hpop := tokSum_pop q s t t e (Act.genTick none n) rest hev
            simp [isSpawnOf, isPrepEvOf, isOpEvOf, isRecEvOf] at hpop
            have hq := htok q
            have e1 : (if q < n then 1 else 0 : ℕ) + (if n = q then 1 else 0)
                = if q < n + 1 then 1 else 0 := by
              by_cases h1 : q < n
              · have h2 : ¬ (n = q) := by omega
                have h3 : q < n + 1 := by omega
                simp [h1, h2, h3]
              · by_cases h2 : n = q
                · have h3 : q < n + 1 := by omega
                  simp [h1, h2, h3]
                · have h3 : ¬ (q < n + 1) := by omega
                  simp [h1, h2, h3]
            omega
        | some ppr =>
          obtain ⟨p, pr⟩ := ppr
          have hp : n = p + 1 := hlink p pr rfl
          refine ⟨some (n, genPrio { s with now := t, events := rest }), n + 1,
            ?_, ?_, ?_, ?_⟩
          · rw [(gen_handleGenTick (some (p, pr)) n _).1]
            simp [hcrest]
          · intro ev hev' hg
            rcases (gen_handleGenTick (some (p, pr)) n _).2 ev hev' hg with hx | hx
            · exact hx
            · exact absurd hg (by simpa using List.countP_eq_zero.mp hcrest ev hx)
          · intro p' pr' hsp
            injection hsp with h1
            injection h1 with h2 h3
            omega
          · intro q
            rw [tokSum_handleGenTick_some, cDis_handleGenTick, cDis_setNowEvents]
            have hpop := tokSum_pop q s t t e (Act.genTick (some (p, pr)) n) rest hev
            simp [isSpawnOf, isPrepEvOf, isOpEvOf, isRecEvOf] at hpop
            have hq := htok q
            have e1 : (if q < n then 1 else 0 : ℕ) + (if n = q then 1 else 0)
                = if q < n + 1 then 1 else 0 := by
              by_cases h1 : q < n
              · have h2 : ¬ (n = q) := by omega
                have h3 : q < n + 1 := by omega
                simp [h1, h2, h3]
              · by_cases h2 : n = q
                · have h3 : q < n + 1 := by omega
                  simp [h1, h2, h3]
                · have h3 : ¬ (q < n + 1) := by omega
                  simp [h1, h2, h3]
            have e2 : (if p = q then 1 else 0 : ℕ) ≤ if q < n then 1 else 0 := by
              by_cases h1 : p = q <;> simp [h1, hp, Nat.lt_succ_self]
            omega
      | prepDone pid =>
        have hcrest : rest.countP isGenEv = 1 := by
          have hzero : isGenEv (t, e, Act.prepDone pid) = false := rfl
          rw [hev, List.countP_cons] at hc
          simp only [hzero, Bool.false_eq_true, if_false] at hc
          omega
        simp only [exec]
        refine ⟨sp0, N, ?_, ?_, hlink, ?_⟩
        · rw [(gen_handlePrepDone pid _).1]
          exact hcrest
        · intro ev hev' hg
          have hx := (gen_handlePrepDone pid _).2 ev hev' hg
          exact hpay ev (hev ▸ List.mem_cons_of_mem _ hx) hg
        · intro q
          rw [tokSum_handlePrepDone, cDis_handlePrepDone, cDis_setNowEvents]
          have hpop := tokSum_pop q s t t e (Act.prepDone pid) rest hev
          simp [isSpawnOf, isPrepEvOf, isOpEvOf, isRecEvOf] at hpop
          have := htok q
          omega
      | opDone pid =>
        have hcrest : rest.countP isGenEv = 1 := by
          have hzero : isGenEv (t, e, Act.opDone pid) = false := rfl
          rw [hev, List.countP_cons] at hc
          simp only [hzero, Bool.false_eq_true, if_false] at hc
          omega
        simp only [exec]
        refine ⟨sp0, N, ?_, ?_, hlink, ?_⟩
        · rw [(gen_handleOpDone pid _).1]
          exact hcrest
        · intro ev hev' hg
          have hx := (gen_handleOpDone pid _).2 ev hev' hg
          exact hpay ev (hev ▸ List.mem_cons_of_mem _ hx) hg
        · intro q
          rw [tokSum_handleOpDone, cDis_handleOpDone, cDis_setNowEvents]
          have hpop := tokSum_pop q s t t e (Act.opDone pid) rest hev
          simp [isSpawnOf, isPrepEvOf, isOpEvOf, isRecEvOf] at hpop
          have := htok q
          omega
      | recDone pid =>
        have hcrest : rest.countP isGenEv = 1 := by
          have hzero : isGenEv (t, e, Act.recDone pid) = false := rfl
          rw [hev, List.countP_cons] at hc
          simp only [hzero, Bool.false_eq_true, if_false] at hc
          omega
        simp only [exec]
        refine ⟨sp0, N, ?_, ?_, hlink, ?_⟩
        · rw [(gen_handleRecDone pid _).1]
          exact hcrest
        · intro ev hev' hg
          have hx := (gen_handleRecDone pid _).2 ev hev' hg
          exact hpay ev (hev ▸ List.mem_cons_of_mem _ hx) hg
        · intro q
          rw [tokSum_handleRecDone, cDis_handleRecDone, cDis_setNowEvents]
          have hpop := tokSum_pop q s t t e (Act.recDone pid) rest hev
          simp [isSpawnOf, isPrepEvOf, isOpEvOf, isRecEvOf] at hpop
          have := htok q
          omega
    · rw [step_horizon s t e a rest hev hlt]
      exact ⟨sp0, N, hc, hpay, hlink, htok⟩

/-- One scheduler step keeps the event queue time-sorted. -/
theorem sorted_step (s : SimState) (h : EvSorted s) : EvSorted (step s) := by
  cases hev : s.events with
  | nil =>
    rw [step_nil s hev]
    exact h
  | cons hd rest =>
    obtain ⟨t, e, a⟩ := hd
    by_cases hlt : t < s.duration
    · rw [step_head s t e a rest hev hlt]
      have h' : EvSorted { s with now := t, events := rest } := by
        have := h
        rw [EvSorted, hev, List.pairwise_cons] at this
        exact this.2
      cases a with
      | genTick sp n =>
        simp only [exec, handleGenTick, startPatient]
        cases sp with
        | none => exact pairwise_insertEv h'
        | some ppr =>
          obtain ⟨p, pr⟩ := ppr
          exact sorted_requestPrep _ _ _ (pairwise_insertEv h')
      | prepDone pid =>
        exact sorted_requestTheater _ _ (sorted_releasePrep _ h')
      | opDone pid =>
        simp only [exec, handleOpDone]
        split
        · exact sorted_requestRecovery _ _ (sorted_releaseTheater _ h')
        · exact sorted_requestRecovery _ _ (sorted_releaseTheater _ h')
      | recDone pid =>
        exact sorted_releaseRecovery _ h'
    · rw [step_horizon s t e a rest hev hlt]
      exact h

/-- Recovery-side places are untouched by a preparation request. -/
theorem recTok_requestPrep (pid : ℕ) (prio : ℤ) (q : ℕ) (s : SimState) :
    recTok q (requestPrep pid prio s) = recTok q s := by
  rw [requestPrep]
  split <;>
    simp [recTok, schedule, pushTrace, countP_insertEv, countP_insertPrioW,
      isRecEvOf]

/-- Recovery-side places are untouched by a preparation release. -/
theorem recTok_releasePrep (q : ℕ) (s : SimState) :
    recTok q (releasePrep s) = recTok q s := by
  cases hw : s.prep.waiting <;>
    simp [releasePrep, hw, recTok, schedule, pushTrace, countP_insertEv,
      isRecEvOf]

/-- Recovery-side places are untouched by a theater request. -/
theorem recTok_requestTheater (pid : ℕ) (q : ℕ) (s : SimState) :
    recTok q (requestTheater pid s) = recTok q s := by
  rw [requestTheater]
  split <;>
    simp [recTok, schedule, pushTrace, countP_insertEv, isRecEvOf]

/-- Recovery-side places are untouched by a theater release. -/
theorem recTok_releaseTheater (q : ℕ) (s : SimState) :
    recTok q (releaseTheater s) = recTok q s := by
  cases hw : s.theater.waiting <;>
    simp [releaseTheater, hw, recTok, schedule, pushTrace, countP_insertEv,
      isRecEvOf]

/-- A recovery request adds one recovery-side place for the requesting
patient: a pending end-of-recovery when granted, a queue slot otherwise. -/
theorem recTok_requestRecovery (pid : ℕ) (q : ℕ) (s : SimState) :
    recTok q (requestRecovery pid s) = recTok q s + if pid = q then 1 else 0 := by
  rw [requestRecovery]
  split <;>
    simp [recTok, schedule, pushTrace, countP_insertEv, List.countP_append,
      List.countP_cons, isRecEvOf] <;>
    omega

/-- A recovery release moves the head waiter, if any, into service:
recovery-side places are unchanged. -/
theorem recTok_releaseRecovery (q : ℕ) (s : SimState) :
    recTok q (releaseRecovery s) = recTok q s := by
  cases hw : s.recovery.waiting with
  | nil => simp [releaseRecovery, hw, recTok]
  | cons w ws =>
    simp [releaseRecovery, hw, recTok, schedule, pushTrace, countP_insertEv,
      isRecEvOf, List.countP_cons]
    omega

/-- Recovery-side places ignore the trace. -/
theorem recTok_pushTrace (q : ℕ) (s : SimState) (e : TraceEv) :
    recTok q (pushTrace s e) = recTok q s := rfl

/-- Recovery-side places ignore the generator streams. -/
theorem recTok_setStreams (q : ℕ) (s : SimState) (a b : List ℚ) :
    recTok q { s with rand := a, ia := b } = recTok q s := rfl

/-- Recovery-side places ignore theater_busy_start. -/
theorem recTok_setBusy (q : ℕ) (s : SimState) (o : Option ℚ) :
    recTok q ({ s with theater_busy_start := o }) = recTok q s := rfl

/-- Recovery-side places ignore the blocked-times list. -/
theorem recTok_setBlocked (q : ℕ) (s : SimState) (l : List ℚ) :
    recTok q ({ s with theater_blocked_times := l }) = recTok q s := rfl

/-- Scheduling a generator wake-up adds no recovery-side place. -/
theorem recTok_scheduleGen (q : ℕ) (s : SimState) (t : ℚ) (sp : Option (ℕ × ℤ))
    (n : ℕ) : recTok q (schedule s t (.genTick sp n)) = recTok q s := by
  simp [recTok, schedule, countP_insertEv, isRecEvOf]

/-- Popping the head event removes exactly the recovery-side place that
event carries. -/
theorem recTok_pop (q : ℕ) (s : SimState) (t tn : ℚ) (e : ℕ) (a : Act)
    (rest : List (ℚ × ℕ × Act)) (hev : s.events = (t, e, a) :: rest) :
    recTok q s = recTok q { s with now := tn, events := rest }
      + (if isRecEvOf q (t, e, a) then 1 else 0) := by
  simp [recTok, hev, List.countP_cons]
  omega

/-- Recovery-side places are untouched by a generator wake-up: the spawned
patient, if any, enters on the preparation side. -/
theorem recTok_handleGenTick (sp : Option (ℕ × ℤ)) (n q : ℕ) (s : SimState) :
    recTok q (handleGenTick sp n s) = recTok q s := by
  simp only [handleGenTick, startPatient]
  cases sp with
  | none => rw [recTok_scheduleGen, recTok_setStreams]
  | some ppr =>
    rw [recTok_requestPrep, recTok_pushTrace, recTok_scheduleGen,
      recTok_setStreams]

/-- Recovery-side places are untouched by the end of a preparation. -/
theorem recTok_handlePrepDone (pid q : ℕ) (s : SimState) :
    recTok q (handlePrepDone pid s) = recTok q s := by
  rw [handlePrepDone, recTok_requestTheater, recTok_releasePrep]

/-- The end of an operation adds one recovery-side place for the patient:
its recovery request is granted or queued. -/
theorem recTok_handleOpDone (pid q : ℕ) (s : SimState) :
    recTok q (handleOpDone pid s) = recTok q s + if pid = q then 1 else 0 := by
  rw [handleOpDone]
  simp only
  rw [recTok_requestRecovery, recTok_pushTrace, recTok_releaseTheater,
    recTok_pushTrace, recTok_setBusy]
  split
  · rw [recTok_pushTrace, recTok_setBlocked, recTok_pushTrace]
  · rw [recTok_pushTrace]

/-- Recovery-side places through the end of a recovery: the release hands
the unit to the head waiter, if any. -/
theorem recTok_handleRecDone (pid q : ℕ) (s : SimState) :
    recTok q (handleRecDone pid s) = recTok q s := by
  rw [handleRecDone, recTok_releaseRecovery, recTok_pushTrace]

/-- Advancing the clock and popping events leave the completion count
unchanged. -/
theorem cOpC_setNowEvents (q : ℕ) (s : SimState) (tn : ℚ)
    (l : List (ℚ × ℕ × Act)) :
    cOpC q ({ s with now := tn, events := l }).trace = cOpC q s.trace := rfl

/-- Advancing the clock and popping events leave the blocking count
unchanged. -/
theorem cBlock_setNowEvents (q : ℕ) (s : SimState) (tn : ℚ)
    (l : List (ℚ × ℕ × Act)) :
    cBlock q ({ s with now := tn, events := l }).trace = cBlock q s.trace := rfl

/-- Advancing the clock and popping events leave the saturated-completion
count unchanged. -/
theorem cSatOpC_setNowEvents (q : ℕ) (s : SimState) (tn : ℚ)
    (l : List (ℚ × ℕ × Act)) :
    cSatOpC q ({ s with now := tn, events := l }).trace = cSatOpC q s.trace := rfl

/-- The completion count is untouched by a generator wake-up. -/
theorem cOpC_handleGenTick (sp : Option (ℕ × ℤ)) (n q : ℕ) (s : SimState) :
    cOpC q (handleGenTick sp n s).trace = cOpC q s.trace := by
  simp only [handleGenTick, startPatient]
  cases sp with
  | none => rw [trace_schedule]
  | some ppr =>
    rw [(trace_requestPrep ppr.1 ppr.2 q _).2.1, trace_pushTrace, cOpC_append1,
      trace_schedule]
    simp [isOpCOf]

/-- The completion count is untouched by the end of a preparation. -/
theorem cOpC_handlePrepDone (pid q : ℕ) (s : SimState) :
    cOpC q (handlePrepDone pid s).trace = cOpC q s.trace := by
  rw [handlePrepDone, (trace_requestTheater pid q (releasePrep s)).2.1,
    (trace_releasePrep q s).2.1]

/-- The end of an operation records exactly one opComplete for the
patient. -/
theorem cOpC_handleOpDone (pid q : ℕ) (s : SimState) :
    cOpC q (handleOpDone pid s).trace
      = cOpC q s.trace + if pid = q then 1 else 0 := by
  rw [handleOpDone]
  simp only
  rw [(trace_requestRecovery pid q _).2.1, trace_pushTrace, cOpC_append1,
    (trace_releaseTheater q _).2.1, trace_pushTrace, cOpC_append1, trace_setBusy]
  split
  · rw [trace_pushTrace, cOpC_append1, trace_setBlocked, trace_pushTrace,
      cOpC_append1]
    simp [isOpCOf]
  · rw [trace_pushTrace, cOpC_append1]
    simp [isOpCOf]

/-- The completion count is untouched by the end of a recovery. -/
theorem cOpC_handleRecDone (pid q : ℕ) (s : SimState) :
    cOpC q (handleRecDone pid s).trace = cOpC q s.trace := by
  rw [handleRecDone, (trace_releaseRecovery q _).2.1]
  simp [pushTrace, cOpC, List.countP_append, List.countP_cons, isOpCOf]

/-- The blocking count is untouched by a generator wake-up. -/
theorem cBlock_handleGenTick (sp : Option (ℕ × ℤ)) (n q : ℕ) (s : SimState) :
    cBlock q (handleGenTick sp n s).trace = cBlock q s.trace := by
  simp only [handleGenTick, startPatient]
  cases sp with
  | none => rw [trace_schedule]
  | some ppr =>
    rw [(trace_requestPrep ppr.1 ppr.2 q _).2.2.1, trace_pushTrace,
      cBlock_append1, trace_schedule]
    simp [isBlockOf]

/-- The blocking count is untouched by the end of a preparation. -/
theorem cBlock_handlePrepDone (pid q : ℕ) (s : SimState) :
    cBlock q (handlePrepDone pid s).trace = cBlock q s.trace := by
  rw [handlePrepDone, (trace_requestTheater pid q (releasePrep s)).2.2.1,
    (trace_releasePrep q s).2.2.1]

/-- The end of an operation appends one blocking interval for the patient
exactly when the recovery waiting queue is non-empty. -/
theorem cBlock_handleOpDone (pid q : ℕ) (s : SimState) :
    cBlock q (handleOpDone pid s).trace
      = cBlock q s.trace
        + if pid = q ∧ 1 ≤ s.recovery.waiting.length then 1 else 0 := by
  rw [handleOpDone]
  simp only
  rw [(trace_requestRecovery pid q _).2.2.1, trace_pushTrace, cBlock_append1,
    (trace_releaseTheater q _).2.2.1, trace_pushTrace, cBlock_append1,
    trace_setBusy]
  by_cases hql : 1 ≤ s.recovery.waiting.length
  · rw [if_pos hql, trace_pushTrace, cBlock_append1, trace_setBlocked,
      trace_pushTrace, cBlock_append1]
    simp [isBlockOf, hql]
  · rw [if_neg hql, trace_pushTrace, cBlock_append1]
    simp [isBlockOf, hql]

/-- The blocking count is untouched by the end of a recovery. -/
theorem cBlock_handleRecDone (pid q : ℕ) (s : SimState) :
    cBlock q (handleRecDone pid s).trace = cBlock q s.trace := by
  rw [handleRecDone, (trace_releaseRecovery q _).2.2.1]
  simp [pushTrace, cBlock, List.countP_append, List.countP_cons, isBlockOf]

/-- The saturated-completion count is untouched by a generator wake-up. -/
theorem cSatOpC_handleGenTick (sp : Option (ℕ × ℤ)) (n q : ℕ) (s : SimState) :
    cSatOpC q (handleGenTick sp n s).trace = cSatOpC q s.trace := by
  simp only [handleGenTick, startPatient]
  cases sp with
  | none => rw [trace_schedule]
  | some ppr =>
    rw [(trace_requestPrep ppr.1 ppr.2 q _).2.2.2, trace_pushTrace,
      cSatOpC_append1, trace_schedule]
    simp [isSatOpCOf]

/-- The saturated-completion count is untouched by the end of a
preparation. -/
theorem cSatOpC_handlePrepDone (pid q : ℕ) (s : SimState) :
    cSatOpC q (handlePrepDone pid s).trace = cSatOpC q s.trace := by
  rw [handlePrepDone, (trace_requestTheater pid q (releasePrep s)).2.2.2,
    (trace_releasePrep q s).2.2.2]

/-- The end of an operation records one saturated completion for the
patient exactly when the recovery waiting queue is non-empty. -/
theorem cSatOpC_handleOpDone (pid q : ℕ) (s : SimState) :
    cSatOpC q (handleOpDone pid s).trace
      = cSatOpC q s.trace
        + if pid = q ∧ 1 ≤ s.recovery.waiting.length then 1 else 0 := by
  rw [handleOpDone]
  simp only
  rw [(trace_requestRecovery pid q _).2.2.2, trace_pushTrace, cSatOpC_append1,
    (trace_releaseTheater q _).2.2.2, trace_pushTrace, cSatOpC_append1,
    trace_setBusy]
  by_cases hql : 1 ≤ s.recovery.waiting.length
  · rw [if_pos hql, trace_pushTrace, cSatOpC_append1, trace_setBlocked,
      trace_pushTrace, cSatOpC_append1]
    simp [isSatOpCOf, hql]
  · rw [if_neg hql, trace_pushTrace, cSatOpC_append1]
    simp [isSatOpCOf, hql]

/-- The saturated-completion count is untouched by the end of a recovery. -/
theorem cSatOpC_handleRecDone (pid q : ℕ) (s : SimState) :
    cSatOpC q (handleRecDone pid s).trace = cSatOpC q s.trace := by
  rw [handleRecDone, (trace_releaseRecovery q _).2.2.2]
  simp [pushTrace, cSatOpC, List.countP_append, List.countP_cons, isSatOpCOf]

/-- One scheduler step preserves the completion-record invariant. -/
theorem opCInv_step (s : SimState) (h : OpCInv s) : OpCInv (step s) := by
  cases hev : s.events with
  | nil =>
    rw [step_nil s hev]
    exact h
  | cons hd rest =>
    obtain ⟨t, e, a⟩ := hd
    by_cases hlt : t < s.duration
    · rw [step_head s t e a rest hev hlt]
      cases a with
      | genTick sp n =>
        simp only [exec]
        intro q
        rw [cOpC_handleGenTick, recTok_handleGenTick, cDis_handleGenTick,
          cOpC_setNowEvents, cDis_setNowEvents]
        have hpop := recTok_pop q s t t e (Act.genTick sp n) rest hev
        simp [isRecEvOf] at hpop
        have := h q
        omega
      | prepDone pid =>
        simp only [exec]
        intro q
        rw [cOpC_handlePrepDone, recTok_handlePrepDone, cDis_handlePrepDone,
          cOpC_setNowEvents, cDis_setNowEvents]
        have hpop := recTok_pop q s t t e (Act.prepDone pid) rest hev
        simp [isRecEvOf] at hpop
        have := h q
        omega
      | opDone pid =>
        simp only [exec]
        intro q
        rw [cOpC_handleOpDone, recTok_handleOpDone, cDis_handleOpDone,
          cOpC_setNowEvents, cDis_setNowEvents]
        have hpop := recTok_pop q s t t e (Act.opDone pid) rest hev
        simp [isRecEvOf] at hpop
        have := h q
        omega
      | recDone pid =>
        simp only [exec]
        intro q
        rw [cOpC_handleRecDone, recTok_handleRecDone, cDis_handleRecDone,
          cOpC_setNowEvents, cDis_setNowEvents]
        have hpop := recTok_pop q s t t e (Act.recDone pid) rest hev
        simp [isRecEvOf] at hpop
        have := h q
        omega
    · rw [step_horizon s t e a rest hev hlt]
      exact h

/-- One scheduler step preserves the equality of blocking appends and
saturated completions. -/
theorem cntOK_step (s : SimState) (h : CntOK s) : CntOK (step s) := by
  cases hev : s.events with
  | nil =>
    rw [step_nil s hev]
    exact h
  | cons hd rest =>
    obtain ⟨t, e, a⟩ := hd
    by_cases hlt : t < s.duration
    · rw [step_head s t e a rest hev hlt]
      cases a with
      | genTick sp n =>
        simp only [exec]
        intro q
        rw [cBlock_handleGenTick, cSatOpC_handleGenTick, cBlock_setNowEvents,
          cSatOpC_setNowEvents]
        exact h q
      | prepDone pid =>
        simp only [exec]
        intro q
        rw [cBlock_handlePrepDone, cSatOpC_handlePrepDone, cBlock_setNowEvents,
          cSatOpC_setNowEvents]
        exact h q
      | opDone pid =>
        simp only [exec]
        intro q
        rw [cBlock_handleOpDone, cSatOpC_handleOpDone, cBlock_setNowEvents,
          cSatOpC_setNowEvents]
        have := h q
        omega
      | recDone pid =>
        simp only [exec]
        intro q
        rw [cBlock_handleRecDone, cSatOpC_handleRecDone, cBlock_setNowEvents,
          cSatOpC_setNowEvents]
        exact h q
    · rw [step_horizon s t e a rest hev hlt]
      exact h

/-- Membership in the trace of a pushTrace. -/
theorem traceMem_pushTrace (s : SimState) (e : TraceEv) (x : TraceEv) :
    x ∈ (pushTrace s e).trace ↔ x ∈ s.trace ∨ x = e := by
  simp [pushTrace]

/-- The clock is untouched by a pushTrace. -/
theorem now_pushTrace (s : SimState) (e : TraceEv) :
    (pushTrace s e).now = s.now := rfl

/-- The clock is untouched by scheduling. -/
theorem now_schedule (s : SimState) (t : ℚ) (a : Act) :
    (schedule s t a).now = s.now := rfl

/-- The clock is untouched by a preparation request. -/
theorem now_requestPrep (pid : ℕ) (prio : ℤ) (s : SimState) :
    (requestPrep pid prio s).now = s.now := by
  rw [requestPrep]
  split <;> rfl

/-- The clock is untouched by a preparation release. -/
theorem now_releasePrep (s : SimState) : (releasePrep s).now = s.now := by
  cases hw : s.prep.waiting <;> simp [releasePrep, hw, schedule, pushTrace]

/-- The clock is untouched by a theater request. -/
theorem now_requestTheater (pid : ℕ) (s : SimState) :
    (requestTheater pid s).now = s.now := by
  rw [requestTheater]
  split <;> rfl

/-- The clock is untouched by a theater release. -/
theorem now_releaseTheater (s : SimState) : (releaseTheater s).now = s.now := by
  cases hw : s.theater.waiting <;> simp [releaseTheater, hw, schedule, pushTrace]

/-- The clock is untouched by a recovery request. -/
theorem now_requestRecovery (pid : ℕ) (s : SimState) :
    (requestRecovery pid s).now = s.now := by
  rw [requestRecovery]
  split <;> rfl

/-- The clock is untouched by a recovery release. -/
theorem now_releaseRecovery (s : SimState) : (releaseRecovery s).now = s.now := by
  cases hw : s.recovery.waiting <;> simp [releaseRecovery, hw, schedule, pushTrace]

/-- Old trace entries survive a preparation request. -/
theorem traceSub_requestPrep (pid : ℕ) (prio : ℤ) (x : TraceEv) (s : SimState)
    (hx : x ∈ s.trace) : x ∈ (requestPrep pid prio s).trace := by
  rw [requestPrep]
  split
  · simp [schedule, pushTrace, hx]
  · exact hx

/-- A preparation request adds only a prepStart entry at the current
instant. -/
theorem traceNew_requestPrep (pid : ℕ) (prio : ℤ) (x : TraceEv) (s : SimState)
    (hx : x ∈ (requestPrep pid prio s).trace) :
    x ∈ s.trace ∨ ∃ p, x = TraceEv.prepStart p s.now := by
  rw [requestPrep] at hx
  split at hx
  · simp [schedule, pushTrace] at hx
    rcases hx with hx | hx
    · exact Or.inl hx
    · exact Or.inr ⟨pid, hx⟩
  · exact Or.inl hx

/-- Old trace entries survive a preparation release. -/
theorem traceSub_releasePrep (x : TraceEv) (s : SimState) (hx : x ∈ s.trace) :
    x ∈ (releasePrep s).trace := by
  cases hw : s.prep.waiting <;> simp [releasePrep, hw, schedule, pushTrace, hx]

/-- A preparation release adds only a prepStart entry at the current
instant. -/
theorem traceNew_releasePrep (x : TraceEv) (s : SimState)
    (hx : x ∈ (releasePrep s).trace) :
    x ∈ s.trace ∨ ∃ p, x = TraceEv.prepStart p s.now := by
  cases hw : s.prep.waiting with
  | nil =>
    simp [releasePrep, hw] at hx
    exact Or.inl hx
  | cons w ws =>
    simp [releasePrep, hw, schedule, pushTrace] at hx
    rcases hx with hx | hx
    · exact Or.inl hx
    · exact Or.inr ⟨w.2.2, hx⟩

/-- Old trace entries survive a theater request. -/
theorem traceSub_requestTheater (pid : ℕ) (x : TraceEv) (s : SimState)
    (hx : x ∈ s.trace) : x ∈ (requestTheater pid s).trace := by
  rw [requestTheater]
  split
  · simp [schedule, pushTrace, hx]
  · exact hx

/-- A theater request adds only an opStart entry at the current instant. -/
theorem traceNew_requestTheater (pid : ℕ) (x : TraceEv) (s : SimState)
    (hx : x ∈ (requestTheater pid s).trace) :
    x ∈ s.trace ∨ ∃ p, x = TraceEv.opStart p s.now := by
  rw [requestTheater] at hx
  split at hx
  · simp [schedule, pushTrace] at hx
    rcases hx with hx | hx
    · exact Or.inl hx
    · exact Or.inr ⟨pid, hx⟩
  · exact Or.inl hx

/-- Old trace entries survive a theater release. -/
theorem traceSub_releaseTheater (x : TraceEv) (s : SimState) (hx : x ∈ s.trace) :
    x ∈ (releaseTheater s).trace := by
  cases hw : s.theater.waiting <;>
    simp [releaseTheater, hw, schedule, pushTrace, hx]

/-- A theater release adds only an opStart entry at the current instant. -/
theorem traceNew_releaseTheater (x : TraceEv) (s : SimState)
    (hx : x ∈ (releaseTheater s).trace) :
    x ∈ s.trace ∨ ∃ p, x = TraceEv.opStart p s.now := by
  cases hw : s.theater.waiting with
  | nil =>
    simp [releaseTheater, hw] at hx
    exact Or.inl hx
  | cons w ws =>
    simp [releaseTheater, hw, schedule, pushTrace] at hx
    rcases hx with hx | hx
    · exact Or.inl hx
    · exact Or.inr ⟨w, hx⟩

/-- Old trace entries survive a recovery request. -/
theorem traceSub_requestRecovery (pid : ℕ) (x : TraceEv) (s : SimState)
    (hx : x ∈ s.trace) : x ∈ (requestRecovery pid s).trace := by
  rw [requestRecovery]
  split
  · simp [schedule, pushTrace, hx]
  · exact hx

/-- A recovery request adds only a recoveryGrant entry at the current
instant. -/
theorem traceNew_requestRecovery (pid : ℕ) (x : TraceEv) (s : SimState)
    (hx : x ∈ (requestRecovery pid s).trace) :
    x ∈ s.trace ∨ ∃ p, x = TraceEv.recoveryGrant p s.now := by
  rw [requestRecovery] at hx
  split at hx
  · simp [schedule, pushTrace] at hx
    rcases hx with hx | hx
    · exact Or.inl hx
    · exact Or.inr ⟨pid, hx⟩
  · exact Or.inl hx

/-- Old trace entries survive a recovery release. -/
theorem traceSub_releaseRecovery (x : TraceEv) (s : SimState) (hx : x ∈ s.trace) :
    x ∈ (releaseRecovery s).trace := by
  cases hw : s.recovery.waiting <;>
    simp [releaseRecovery, hw, schedule, pushTrace, hx]

/-- A recovery release adds only a recoveryGrant entry at the current
instant. -/
theorem traceNew_releaseRecovery (x : TraceEv) (s : SimState)
    (hx : x ∈ (releaseRecovery s).trace) :
    x ∈ s.trace ∨ ∃ p, x = TraceEv.recoveryGrant p s.now := by
  cases hw : s.recovery.waiting with
  | nil =>
    simp [releaseRecovery, hw] at hx
    exact Or.inl hx
  | cons w ws =>
    simp [releaseRecovery, hw, schedule, pushTrace] at hx
    rcases hx with hx | hx
    · exact Or.inl hx
    · exact Or.inr ⟨w, hx⟩

/-- Old trace entries survive a generator wake-up. -/
theorem traceSub_handleGenTick (sp : Option (ℕ × ℤ)) (n : ℕ) (x : TraceEv)
    (s : SimState) (hx : x ∈ s.trace) : x ∈ (handleGenTick sp n s).trace := by
  simp only [handleGenTick, startPatient]
  cases sp with
  | none => exact hx
  | some ppr =>
    apply traceSub_requestPrep
    rw [traceMem_pushTrace]
    exact Or.inl hx

/-- A generator wake-up adds only arrival and prepStart entries at the
current instant. -/
theorem traceNew_handleGenTick (sp : Option (ℕ × ℤ)) (n : ℕ) (x : TraceEv)
    (s : SimState) (hx : x ∈ (handleGenTick sp n s).trace) :
    x ∈ s.trace ∨ (∃ p pr, x = TraceEv.arrival p pr s.now)
      ∨ ∃ p, x = TraceEv.prepStart p s.now := by
  simp only [handleGenTick, startPatient] at hx
  cases sp with
  | none => exact Or.inl hx
  | some ppr =>
    rcases traceNew_requestPrep ppr.1 ppr.2 x _ hx with hx | ⟨p, hp⟩
    · rw [traceMem_pushTrace] at hx
      rcases hx with hx | hx
      · exact Or.inl hx
      · exact Or.inr (Or.inl ⟨ppr.1, ppr.2, hx⟩)
    · exact Or.inr (Or.inr ⟨p, hp⟩)

/-- Old trace entries survive the end of a preparation. -/
theorem traceSub_handlePrepDone (pid : ℕ) (x : TraceEv) (s : SimState)
    (hx : x ∈ s.trace) : x ∈ (handlePrepDone pid s).trace := by
  rw [handlePrepDone]
  exact traceSub_requestTheater pid x _ (traceSub_releasePrep x s hx)

/-- The end of a preparation adds only prepStart and opStart entries at the
current instant. -/
theorem traceNew_handlePrepDone (pid : ℕ) (x : TraceEv) (s : SimState)
    (hx : x ∈ (handlePrepDone pid s).trace) :
    x ∈ s.trace ∨ (∃ p, x = TraceEv.prepStart p s.now)
      ∨ ∃ p, x = TraceEv.opStart p s.now := by
  rw [handlePrepDone] at hx
  rcases traceNew_requestTheater pid x _ hx with hx | ⟨p, hp⟩
  · rcases traceNew_releasePrep x s hx with hx | hp
    · exact Or.inl hx
    · exact Or.inr (Or.inl hp)
  · rw [now_releasePrep] at hp
    exact Or.inr (Or.inr ⟨p, hp⟩)

/-- Old trace entries survive the end of a recovery. -/
theorem traceSub_handleRecDone (pid : ℕ) (x : TraceEv) (s : SimState)
    (hx : x ∈ s.trace) : x ∈ (handleRecDone pid s).trace := by
  rw [handleRecDone]
  apply traceSub_releaseRecovery
  rw [traceMem_pushTrace]
  exact Or.inl hx

/-- The end of a recovery adds only discharge and recoveryGrant entries at
the current instant. -/
theorem traceNew_handleRecDone (pid : ℕ) (x : TraceEv) (s : SimState)
    (hx : x ∈ (handleRecDone pid s).trace) :
    x ∈ s.trace ∨ (∃ p, x = TraceEv.discharge p s.now)
      ∨ ∃ p, x = TraceEv.recoveryGrant p s.now := by
  rw [handleRecDone] at hx
  rcases traceNew_releaseRecovery x _ hx with hx | ⟨p, hp⟩
  · rw [traceMem_pushTrace] at hx
    rcases hx with hx | hx
    · exact Or.inl hx
    · exact Or.inr (Or.inl ⟨pid, hx⟩)
  · rw [now_pushTrace] at hp
    exact Or.inr (Or.inr ⟨p, hp⟩)

/-- Old trace entries survive the end of an operation. -/
theorem traceSub_handleOpDone (pid : ℕ) (x : TraceEv) (s : SimState)
    (hx : x ∈ s.trace) : x ∈ (handleOpDone pid s).trace := by
  rw [handleOpDone]
  simp only
  apply traceSub_requestRecovery
  rw [traceMem_pushTrace]
  refine Or.inl (traceSub_releaseTheater x _ ?_)
  rw [traceMem_pushTrace]
  refine Or.inl ?_
  rw [trace_setBusy]
  split
  · rw [traceMem_pushTrace, trace_setBlocked, traceMem_pushTrace]
    exact Or.inl (Or.inl hx)
  · rw [traceMem_pushTrace]
    exact Or.inl hx

/-- The end of an operation records the completion of the patient at the
recovery occupancy and queue length read at that instant. -/
theorem opComplete_mem_handleOpDone (pid : ℕ) (s : SimState) :
    TraceEv.opComplete pid s.now s.recovery.in_use s.recovery.waiting.length
      ∈ (handleOpDone pid s).trace := by
  rw [handleOpDone]
  simp only
  apply traceSub_requestRecovery
  rw [traceMem_pushTrace]
  refine Or.inl (traceSub_releaseTheater _ _ ?_)
  rw [traceMem_pushTrace]
  refine Or.inl ?_
  rw [trace_setBusy]
  split
  · rw [traceMem_pushTrace, trace_setBlocked, traceMem_pushTrace]
    exact Or.inl (Or.inr rfl)
  · rw [traceMem_pushTrace]
    exact Or.inr rfl

/-- The end of an operation records the recovery request of the patient at
that instant. -/
theorem recoveryRequest_mem_handleOpDone (pid : ℕ) (s : SimState) :
    TraceEv.recoveryRequest pid s.now ∈ (handleOpDone pid s).trace := by
  rw [handleOpDone]
  simp only
  apply traceSub_requestRecovery
  rw [traceMem_pushTrace]
  refine Or.inr ?_
  rw [now_releaseTheater, now_pushTrace]
  split <;> rfl

/-- The end of an operation adds only the opComplete, the conditional
blockAppend, the theaterRelease, opStart, recoveryRequest and recoveryGrant
entries, all at the current instant. -/
theorem traceNew_handleOpDone (pid : ℕ) (x : TraceEv) (s : SimState)
    (hx : x ∈ (handleOpDone pid s).trace) :
    x ∈ s.trace
      ∨ x = TraceEv.opComplete pid s.now s.recovery.in_use
          s.recovery.waiting.length
      ∨ (x = TraceEv.blockAppend pid (s.theater_busy_start.getD s.now) s.now
            (s.now - s.theater_busy_start.getD s.now)
          ∧ 1 ≤ s.recovery.waiting.length)
      ∨ x = TraceEv.theaterRelease pid s.now
      ∨ (∃ p, x = TraceEv.opStart p s.now)
      ∨ x = TraceEv.recoveryRequest pid s.now
      ∨ ∃ p, x = TraceEv.recoveryGrant p s.now := by
  rw [handleOpDone] at hx
  simp only at hx
  by_cases hql : 1 ≤ s.recovery.waiting.length
  · rw [if_pos hql] at hx
    rcases traceNew_requestRecovery pid x _ hx with hx | ⟨p, hp⟩
    · rw [traceMem_pushTrace] at hx
      rcases hx with hx | hx
      · rcases traceNew_releaseTheater x _ hx with hx | ⟨p, hp⟩
        · rw [traceMem_pushTrace] at hx
          rcases hx with hx | hx
          · rw [trace_setBusy, traceMem_pushTrace, trace_setBlocked,
              traceMem_pushTrace] at hx
            rcases hx with (hx | hx) | hx
            · exact Or.inl hx
            · exact Or.inr (Or.inl hx)
            · exact Or.inr (Or.inr (Or.inl ⟨hx, hql⟩))
          · exact Or.inr (Or.inr (Or.inr (Or.inl hx)))
        · exact Or.inr (Or.inr (Or.inr (Or.inr (Or.inl ⟨p, hp⟩))))
      · rw [now_releaseTheater, now_pushTrace] at hx
        exact Or.inr (Or.inr (Or.inr (Or.inr (Or.inr (Or.inl hx)))))
    · rw [now_pushTrace, now_releaseTheater, now_pushTrace] at hp
      exact Or.inr (Or.inr (Or.inr (Or.inr (Or.inr (Or.inr ⟨p, hp⟩)))))
  · rw [if_neg hql] at hx
    rcases traceNew_requestRecovery pid x _ hx with hx | ⟨p, hp⟩
    · rw [traceMem_pushTrace] at hx
      rcases hx with hx | hx
      · rcases traceNew_releaseTheater x _ hx with hx | ⟨p, hp⟩
        · rw [traceMem_pushTrace] at hx
          rcases hx with hx | hx
          · rw [trace_setBusy, traceMem_pushTrace] at hx
            rcases hx with hx | hx
            · exact Or.inl hx
            · exact Or.inr (Or.inl hx)
          · exact Or.inr (Or.inr (Or.inr (Or.inl hx)))
        · exact Or.inr (Or.inr (Or.inr (Or.inr (Or.inl ⟨p, hp⟩))))
      · rw [now_releaseTheater, now_pushTrace] at hx
        exact Or.inr (Or.inr (Or.inr (Or.inr (Or.inr (Or.inl hx)))))
    · rw [now_pushTrace, now_releaseTheater, now_pushTrace] at hp
      exact Or.inr (Or.inr (Or.inr (Or.inr (Or.inr (Or.inr ⟨p, hp⟩)))))

/-- One scheduler step preserves the release-at-completion trace property:
every recorded theater release is paired with an operation completion and a
recovery request of the same patient at the same instant. -/
theorem c2TraceOK_step (s : SimState) (h : C2TraceOK s) : C2TraceOK (step s) := by
  cases hev : s.events with
  | nil =>
    rw [step_nil s hev]
    exact h
  | cons hd rest =>
    obtain ⟨t, e, a⟩ := hd
    by_cases hlt : t < s.duration
    · rw [step_head s t e a rest hev hlt]
      cases a with
      | genTick sp n =>
        simp only [exec]
        intro pid t' hmem
        rcases traceNew_handleGenTick sp n _ _ hmem with hx | ⟨p, pr, hx⟩ | ⟨p, hx⟩
        · obtain ⟨⟨iu, ql, h1⟩, h2⟩ := h pid t' hx
          exact ⟨⟨iu, ql, traceSub_handleGenTick sp n _ _ h1⟩,
            traceSub_handleGenTick sp n _ _ h2⟩
        · simp at hx
        · simp at hx
      | prepDone pid0 =>
        simp only [exec]
        intro pid t' hmem
        rcases traceNew_handlePrepDone pid0 _ _ hmem with hx | ⟨p, hx⟩ | ⟨p, hx⟩
        · obtain ⟨⟨iu, ql, h1⟩, h2⟩ := h pid t' hx
          exact ⟨⟨iu, ql, traceSub_handlePrepDone pid0 _ _ h1⟩,
            traceSub_handlePrepDone pid0 _ _ h2⟩
        · simp at hx
        · simp at hx
      | opDone pid0 =>
        simp only [exec]
        intro pid t' hmem
        rcases traceNew_handleOpDone pid0 _ _ hmem with
          hx | hx | ⟨hx, hq⟩ | hx | ⟨p, hx⟩ | hx | ⟨p, hx⟩
        · obtain ⟨⟨iu, ql, h1⟩, h2⟩ := h pid t' hx
          exact ⟨⟨iu, ql, traceSub_handleOpDone pid0 _ _ h1⟩,
            traceSub_handleOpDone pid0 _ _ h2⟩
        · simp at hx
        · simp at hx
        · injection hx with h1 h2
          subst h1
          subst h2
          exact ⟨⟨_, _, opComplete_mem_handleOpDone _ _⟩,
            recoveryRequest_mem_handleOpDone _ _⟩
        · simp at hx
        · simp at hx
        · simp at hx
      | recDone pid0 =>
        simp only [exec]
        intro pid t' hmem
        rcases traceNew_handleRecDone pid0 _ _ hmem with hx | ⟨p, hx⟩ | ⟨p, hx⟩
        · obtain ⟨⟨iu, ql, h1⟩, h2⟩ := h pid t' hx
          exact ⟨⟨iu, ql, traceSub_handleRecDone pid0 _ _ h1⟩,
            traceSub_handleRecDone pid0 _ _ h2⟩
        · simp at hx
        · simp at hx
    · rw [step_horizon s t e a rest hev hlt]
      exact h

/-- The theater pool is untouched by a preparation release. -/
theorem theater_releasePrep (s : SimState) :
    (releasePrep s).theater = s.theater := by
  cases hw : s.prep.waiting <;> simp [releasePrep, hw, schedule, pushTrace]

/-- The busy-start marker is untouched by a pushTrace. -/
theorem busy_pushTrace (s : SimState) (e : TraceEv) :
    (pushTrace s e).theater_busy_start = s.theater_busy_start := rfl

/-- The busy-start marker is untouched by a recovery request. -/
theorem busy_requestRecovery (pid : ℕ) (s : SimState) :
    (requestRecovery pid s).theater_busy_start = s.theater_busy_start := by
  rw [requestRecovery]
  split <;> rfl

/-- A theater release with empty queue keeps the busy-start marker. -/
theorem busy_releaseTheater_nil (s : SimState) (hw : s.theater.waiting = []) :
    (releaseTheater s).theater_busy_start = s.theater_busy_start := by
  simp [releaseTheater, hw]

/-- A theater release with empty queue keeps the event queue. -/
theorem events_releaseTheater_nil (s : SimState) (hw : s.theater.waiting = []) :
    (releaseTheater s).events = s.events := by
  simp [releaseTheater, hw]

/-- A theater release handing the unit over sets the busy-start marker to
the current instant. -/
theorem busy_releaseTheater_cons (s : SimState) (w : ℕ) (ws : List ℕ)
    (hw : s.theater.waiting = w :: ws) :
    (releaseTheater s).theater_busy_start = some s.now := by
  simp [releaseTheater, hw, schedule, pushTrace]

/-- A theater release handing the unit over records the opStart of the head
waiter. -/
theorem trace_releaseTheater_cons (s : SimState) (w : ℕ) (ws : List ℕ)
    (hw : s.theater.waiting = w :: ws) :
    (releaseTheater s).trace = s.trace ++ [TraceEv.opStart w s.now] := by
  simp [releaseTheater, hw, schedule, pushTrace]

/-- A theater release handing the unit over schedules the end of the new
operation. -/
theorem events_releaseTheater_cons (s : SimState) (w : ℕ) (ws : List ℕ)
    (hw : s.theater.waiting = w :: ws) :
    (releaseTheater s).events
      = insertEv (s.now + (draw s.opT).1, s.nextEid, .opDone w) s.events := by
  simp [releaseTheater, hw, schedule, pushTrace]

/-- A preparation release adds no end-of-operation event. -/
theorem opEvSub_releasePrep (s : SimState) :
    ∀ ev ∈ (releasePrep s).events, isOpEvAny ev = true → ev ∈ s.events := by
  cases hw : s.prep.waiting with
  | nil =>
    simp only [releasePrep, hw]
    exact fun ev hev _ => hev
  | cons w ws =>
    simp only [releasePrep, hw]
    intro ev hev hg
    simp only [schedule, pushTrace] at hev
    rcases mem_insertEv.mp hev with hx | hx
    · subst hx
      simp [isOpEvAny] at hg
    · exact hx

/-- A recovery request adds no end-of-operation event. -/
theorem opEvSub_requestRecovery (pid : ℕ) (s : SimState) :
    ∀ ev ∈ (requestRecovery pid s).events, isOpEvAny ev = true → ev ∈ s.events := by
  rw [requestRecovery]
  split
  · intro ev hev hg
    simp only [schedule, pushTrace] at hev
    rcases mem_insertEv.mp hev with hx | hx
    · subst hx
      simp [isOpEvAny] at hg
    · exact hx
  · intro ev hev _
    exact hev

/-- The clock is untouched by the end of an operation. -/
theorem now_handleOpDone (pid : ℕ) (s : SimState) :
    (handleOpDone pid s).now = s.now := by
  rw [handleOpDone]
  simp only
  rw [now_requestRecovery, now_pushTrace, now_releaseTheater, now_pushTrace]
  split <;> rfl

/-- A pushTrace preserves the busy-start pairing. -/
theorem thPair_pushTrace (s : SimState) (e : TraceEv) (h : ThPair s) :
    ThPair (pushTrace s e) := by
  intro t' e' q hm
  obtain ⟨b, h1, h2, h3⟩ := h t' e' q hm
  exact ⟨b, h1, List.mem_append_left _ h2, h3⟩

/-- Scheduling a generator wake-up preserves the busy-start pairing. -/
theorem thPair_scheduleGen (s : SimState) (t : ℚ) (sp : Option (ℕ × ℤ))
    (n : ℕ) (h : ThPair s) : ThPair (schedule s t (.genTick sp n)) := by
  intro t' e' q hm
  simp only [schedule] at hm
  rcases mem_insertEv.mp hm with hx | hx
  · simp at hx
  · exact h t' e' q hx

/-- A generator wake-up preserves the busy-start pairing: the spawned
patient enters the preparation side only. -/
theorem thPair_handleGenTick (sp : Option (ℕ × ℤ)) (n : ℕ) (s : SimState)
    (h : ThPair s) : ThPair (handleGenTick sp n s) := by
  simp only [handleGenTick, startPatient]
  cases sp with
  | none => exact thPair_scheduleGen _ _ _ _ h
  | some ppr =>
    exact thPair_requestPrep _ _ _ (thPair_pushTrace _ _ (thPair_scheduleGen _ _ _ _ h))

/-- The end of a recovery preserves the busy-start pairing. -/
theorem thPair_handleRecDone (pid : ℕ) (s : SimState) (h : ThPair s) :
    ThPair (handleRecDone pid s) := by
  rw [handleRecDone]
  exact thPair_releaseRecovery _ (thPair_pushTrace _ _ h)

/-- The end of an operation with empty theater queue clears the busy-start
marker and adds no end-of-operation event. -/
theorem handleOpDone_nilW (pid : ℕ) (s : SimState)
    (hw : s.theater.waiting = []) :
    (handleOpDone pid s).theater_busy_start = none
      ∧ ∀ ev ∈ (handleOpDone pid s).events, isOpEvAny ev = true →
          ev ∈ s.events := by
  rw [handleOpDone]
  simp only
  by_cases hql : 1 ≤ s.recovery.waiting.length
  · rw [if_pos hql]
    constructor
    · rw [busy_requestRecovery, busy_pushTrace]
      simp [releaseTheater, pushTrace, hw]
    · intro ev hev hg
      have h1 := opEvSub_requestRecovery pid _ ev hev hg
      rw [events_pushTrace] at h1
      simp only [releaseTheater, pushTrace, hw] at h1
      exact h1
  · rw [if_neg hql]
    constructor
    · rw [busy_requestRecovery, busy_pushTrace]
      simp [releaseTheater, pushTrace, hw]
    · intro ev hev hg
      have h1 := opEvSub_requestRecovery pid _ ev hev hg
      rw [events_pushTrace] at h1
      simp only [releaseTheater, pushTrace, hw] at h1
      exact h1

/-- The end of an operation handing the theater to the head waiter sets the
busy-start marker to the current instant, records the opStart of the
waiter, and adds only that end-of-operation event. -/
theorem handleOpDone_consW (pid w : ℕ) (ws : List ℕ) (s : SimState)
    (hw : s.theater.waiting = w :: ws) :
    (handleOpDone pid s).theater_busy_start = some s.now
      ∧ TraceEv.opStart w s.now ∈ (handleOpDone pid s).trace
      ∧ ∀ ev ∈ (handleOpDone pid s).events, isOpEvAny ev = true →
          ev ∈ s.events ∨ ev.2.2 = Act.opDone w := by
  rw [handleOpDone]
  simp only
  by_cases hql : 1 ≤ s.recovery.waiting.length
  · rw [if_pos hql]
    refine ⟨?_, ?_, ?_⟩
    · rw [busy_requestRecovery, busy_pushTrace]
      simp [releaseTheater, pushTrace, schedule, hw]
    · apply traceSub_requestRecovery
      rw [traceMem_pushTrace]
      refine Or.inl ?_
      simp [releaseTheater, pushTrace, schedule, hw]
    · intro ev hev hg
      have h1 := opEvSub_requestRecovery pid _ ev hev hg
      rw [events_pushTrace] at h1
      simp only [releaseTheater, pushTrace, schedule, hw] at h1
      rcases mem_insertEv.mp h1 with hx | hx
      · right
        rw [hx]
      · left
        exact hx
  · rw [if_neg hql]
    refine ⟨?_, ?_, ?_⟩
    · rw [busy_requestRecovery, busy_pushTrace]
      simp [releaseTheater, pushTrace, schedule, hw]
    · apply traceSub_requestRecovery
      rw [traceMem_pushTrace]
      refine Or.inl ?_
      simp [releaseTheater, pushTrace, schedule, hw]
    · intro ev hev hg
      have h1 := opEvSub_requestRecovery pid _ ev hev hg
      rw [events_pushTrace] at h1
      simp only [releaseTheater, pushTrace, schedule, hw] at h1
      rcases mem_insertEv.mp h1 with hx | hx
      · right
        rw [hx]
      · left
        exact hx

/-- One scheduler step preserves the busy-start pairing, given occupancy
with no slack, the literal theater capacity 1 of the source, and the clock
lower bound on pending events. -/
theorem thPair_step (s : SimState) (h : ThPair s) (hu : UseInvX s 0 0 0)
    (hcap : s.theater.capacity = 1) (hlb : EvTimeLB s) : ThPair (step s) := by
  cases hev : s.events with
  | nil =>
    rw [step_nil s hev]
    exact h
  | cons hd rest =>
    obtain ⟨t, e, a⟩ := hd
    have hnow_t : s.now ≤ t := hlb (t, e, a) (hev ▸ List.mem_cons_self _ _)
    by_cases hlt : t < s.duration
    · rw [step_head s t e a rest hev hlt]
      have h' : ThPair { s with now := t, events := rest } := by
        intro t' e' q hm
        obtain ⟨b, h1, h2, h3⟩ := h t' e' q (hev ▸ List.mem_cons_of_mem _ hm)
        exact ⟨b, h1, h2, le_trans h3 hnow_t⟩
      cases a with
      | genTick sp n =>
        simp only [exec]
        exact thPair_handleGenTick sp n _ h'
      | prepDone pid0 =>
        simp only [exec]
        rw [handlePrepDone]
        have hr : ThPair (releasePrep { s with now := t, events := rest }) :=
          thPair_releasePrep _ h'
        by_cases hgr : (releasePrep { s with now := t, events := rest }).theater.in_use
            < (releasePrep { s with now := t, events := rest }).theater.capacity
        · have hcnt : rest.countP isOpEvAny = 0 := by
            have h1 := hu.2.1
            rw [theater_releasePrep] at hgr
            simp at hgr
            rw [hev, List.countP_cons] at h1
            simp [isOpEvAny] at h1
            omega
          rw [requestTheater, if_pos hgr]
          intro t' e' q hm
          simp only [schedule, pushTrace] at hm
          rcases mem_insertEv.mp hm with hx | hx
          · simp at hx
            obtain ⟨h1, h2, h3⟩ := hx
            refine ⟨(releasePrep { s with now := t, events := rest }).now, rfl,
              ?_, ?_⟩
            · rw [h3, trace_schedule, traceMem_pushTrace]
              exact Or.inr rfl
            · exact le_refl _
          · have h2 := opEvSub_releasePrep _ _ hx rfl
            have h3 := List.countP_eq_zero.mp hcnt _ h2
            simp [isOpEvAny] at h3
        · rw [requestTheater, if_neg hgr]
          intro t' e' q hm
          obtain ⟨b, h1, h2, h3⟩ := hr t' e' q hm
          exact ⟨b, h1, h2, h3⟩
      | opDone pid0 =>
        simp only [exec]
        have hcnt : rest.countP isOpEvAny = 0 := by
          have h1 := hu.2.1
          have h2 := hu.2.2.2.2.1
          rw [hev, List.countP_cons] at h1
          simp [isOpEvAny] at h1
          omega
        cases hw : s.theater.waiting with
        | nil =>
          intro t' e' q hm
          have h2 := (handleOpDone_nilW pid0 { s with now := t, events := rest }
            hw).2 _ hm rfl
          have h3 := List.countP_eq_zero.mp hcnt _ h2
          simp [isOpEvAny] at h3
        | cons w ws =>
          intro t' e' q hm
          obtain ⟨hb, hst, hsub⟩ :=
            handleOpDone_consW pid0 w ws { s with now := t, events := rest } hw
          rcases hsub _ hm rfl with hx | hx
          · have h3 := List.countP_eq_zero.mp hcnt _ hx
            simp [isOpEvAny] at h3
          · have hq : q = w := by
              simp at hx
              exact hx
            refine ⟨({ s with now := t, events := rest }).now, hb, ?_, ?_⟩
            · rw [hq]
              exact hst
            · rw [now_handleOpDone]
      | recDone pid0 =>
        simp only [exec]
        exact thPair_handleRecDone pid0 _ h'
    · rw [step_horizon s t e a rest hev hlt]
      exact h

/-- A pushTrace keeps the clock lower bound on pending events. -/
theorem timeLB_pushTrace (s : SimState) (e : TraceEv) (h : EvTimeLB s) :
    EvTimeLB (pushTrace s e) := h

/-- A pushTrace keeps the streams nonnegative. -/
theorem nn_pushTrace (s : SimState) (e : TraceEv) (h : NN s) :
    NN (pushTrace s e) := h

/-- A generator wake-up schedules only at or after the current clock. -/
theorem timeLB_handleGenTick (sp : Option (ℕ × ℤ)) (n : ℕ) (s : SimState)
    (hlb : EvTimeLB s) (hnn : NN s) : EvTimeLB (handleGenTick sp n s) := by
  simp only [handleGenTick, startPatient]
  cases sp with
  | none =>
    intro ev hev
    simp only [schedule] at hev ⊢
    rcases mem_insertEv.mp hev with h | h
    · subst h
      have := draw_fst_nonneg hnn.1
      simp only
      linarith
    · exact hlb ev h
  | some ppr =>
    apply timeLB_requestPrep
    · intro ev hev
      simp only [schedule, pushTrace] at hev ⊢
      rcases mem_insertEv.mp hev with h | h
      · subst h
        have := draw_fst_nonneg hnn.1
        simp only
        linarith
      · exact hlb ev h
    · exact ⟨draw_snd_nn hnn.1, hnn.2.1, hnn.2.2.1, hnn.2.2.2⟩

/-- The end of a preparation schedules only at or after the current clock. -/
theorem timeLB_handlePrepDone (pid : ℕ) (s : SimState)
    (hlb : EvTimeLB s) (hnn : NN s) : EvTimeLB (handlePrepDone pid s) := by
  rw [handlePrepDone]
  exact timeLB_requestTheater pid _ (timeLB_releasePrep _ hlb hnn)
    (nn_releasePrep _ hnn)

/-- The end of an operation schedules only at or after the current clock. -/
theorem timeLB_handleOpDone (pid : ℕ) (s : SimState)
    (hlb : EvTimeLB s) (hnn : NN s) : EvTimeLB (handleOpDone pid s) := by
  rw [handleOpDone]
  simp only
  apply timeLB_requestRecovery
  · apply timeLB_pushTrace
    apply timeLB_releaseTheater
    · apply timeLB_pushTrace
      split
      · exact hlb
      · exact hlb
    · apply nn_pushTrace
      split
      · exact hnn
      · exact hnn
  · apply nn_pushTrace
    apply nn_releaseTheater
    apply nn_pushTrace
    split
    · exact hnn
    · exact hnn

/-- The end of a recovery schedules only at or after the current clock. -/
theorem timeLB_handleRecDone (pid : ℕ) (s : SimState)
    (hlb : EvTimeLB s) (hnn : NN s) : EvTimeLB (handleRecDone pid s) := by
  rw [handleRecDone]
  exact timeLB_releaseRecovery _ hlb hnn

/-- One scheduler step keeps every pending event at or after the clock. -/
theorem evTimeLB_step (s : SimState) (hlb : EvTimeLB s) (hs : EvSorted s)
    (hnn : NN s) : EvTimeLB (step s) := by
  cases hev : s.events with
  | nil =>
    rw [step_nil s hev]
    exact hlb
  | cons hd rest =>
    obtain ⟨t, e, a⟩ := hd
    by_cases hlt : t < s.duration
    · rw [step_head s t e a rest hev hlt]
      have h' : EvTimeLB { s with now := t, events := rest } := by
        have hp := hs
        rw [EvSorted, hev, List.pairwise_cons] at hp
        intro ev hev'
        exact hp.1 ev hev'
      have hnn' : NN { s with now := t, events := rest } := hnn
      cases a with
      | genTick sp n =>
        simp only [exec]
        exact timeLB_handleGenTick sp n _ h' hnn'
      | prepDone pid =>
        simp only [exec]
        exact timeLB_handlePrepDone pid _ h' hnn'
      | opDone pid =>
        simp only [exec]
        exact timeLB_handleOpDone pid _ h' hnn'
      | recDone pid =>
        simp only [exec]
        exact timeLB_handleRecDone pid _ h' hnn'
    · rw [step_horizon s t e a rest hev hlt]
      exact hlb

/-- One scheduler step preserves the blocking-interval trace property:
every recorded blockAppend stores the theater-entry instant, the completion
instant and their nonnegative difference, paired with a saturated
completion. Uses the busy-start pairing and the clock lower bound at the
pre-step state. -/
theorem c4TraceOK_step (s : SimState) (h4 : C4TraceOK s) (hth : ThPair s)
    (hlb : EvTimeLB s) : C4TraceOK (step s) := by
  cases hev : s.events with
  | nil =>
    rw [step_nil s hev]
    exact h4
  | cons hd rest =>
    obtain ⟨te, ee, a⟩ := hd
    by_cases hlt : te < s.duration
    · rw [step_head s te ee a rest hev hlt]
      cases a with
      | genTick sp n =>
        simp only [exec]
        intro pid b tb v hmem
        rcases traceNew_handleGenTick sp n _ _ hmem with hx | ⟨p, pr, hx⟩ | ⟨p, hx⟩
        · obtain ⟨h1, h2, h3, iu, ql, h5, h6⟩ := h4 pid b tb v hx
          exact ⟨h1, h2, traceSub_handleGenTick sp n _ _ h3,
            iu, ql, traceSub_handleGenTick sp n _ _ h5, h6⟩
        · simp at hx
        · simp at hx
      | prepDone pid0 =>
        simp only [exec]
        intro pid b tb v hmem
        rcases traceNew_handlePrepDone pid0 _ _ hmem with hx | ⟨p, hx⟩ | ⟨p, hx⟩
        · obtain ⟨h1, h2, h3, iu, ql, h5, h6⟩ := h4 pid b tb v hx
          exact ⟨h1, h2, traceSub_handlePrepDone pid0 _ _ h3,
            iu, ql, traceSub_handlePrepDone pid0 _ _ h5, h6⟩
        · simp at hx
        · simp at hx
      | opDone pid0 =>
        simp only [exec]
        intro pid b tb v hmem
        rcases traceNew_handleOpDone pid0 _ _ hmem with
          hx | hx | ⟨hx, hq⟩ | hx | ⟨p, hx⟩ | hx | ⟨p, hx⟩
        · obtain ⟨h1, h2, h3, iu, ql, h5, h6⟩ := h4 pid b tb v hx
          exact ⟨h1, h2, traceSub_handleOpDone pid0 _ _ h3,
            iu, ql, traceSub_handleOpDone pid0 _ _ h5, h6⟩
        · simp at hx
        · obtain ⟨b0, hb0, hst0, hble⟩ :=
            hth te ee pid0 (hev ▸ List.mem_cons_self _ _)
          have hnt : s.now ≤ te :=
            hlb (te, ee, Act.opDone pid0) (hev ▸ List.mem_cons_self _ _)
          injection hx with h1 h2 h3 h4x
          subst h1
          subst h2
          subst h3
          subst h4x
          refine ⟨rfl, ?_, ?_, ?_⟩
          · simp [hb0]
            linarith
          · simp [hb0]
            exact traceSub_handleOpDone _ _ _ hst0
          · exact ⟨_, _, opComplete_mem_handleOpDone _ _, hq⟩
        · simp at hx
        · simp at hx
        · simp at hx
        · simp at hx
      | recDone pid0 =>
        simp only [exec]
        intro pid b tb v hmem
        rcases traceNew_handleRecDone pid0 _ _ hmem with hx | ⟨p, hx⟩ | ⟨p, hx⟩
        · obtain ⟨h1, h2, h3, iu, ql, h5, h6⟩ := h4 pid b tb v hx
          exact ⟨h1, h2, traceSub_handleRecDone pid0 _ _ h3,
            iu, ql, traceSub_handleRecDone pid0 _ _ h5, h6⟩
        · simp at hx
        · simp at hx
    · rw [step_horizon s te ee a rest hev hlt]
      exact h4

/-- The theater capacity is untouched by a pushTrace. -/
theorem thcap_pushTrace (s : SimState) (e : TraceEv) :
    (pushTrace s e).theater.capacity = s.theater.capacity := rfl

/-- The theater capacity is untouched by a preparation request. -/
theorem cap_requestPrep (pid : ℕ) (prio : ℤ) (s : SimState) :
    (requestPrep pid prio s).theater.capacity = s.theater.capacity := by
  rw [requestPrep]
  split <;> rfl

/-- The theater capacity is untouched by a theater request. -/
theorem cap_requestTheater (pid : ℕ) (s : SimState) :
    (requestTheater pid s).theater.capacity = s.theater.capacity := by
  rw [requestTheater]
  split <;> rfl

/-- The theater capacity is untouched by a theater release. -/
theorem cap_releaseTheater (s : SimState) :
    (releaseTheater s).theater.capacity = s.theater.capacity := by
  cases hw : s.theater.waiting <;>
    simp [releaseTheater, hw, schedule, pushTrace]

/-- The theater capacity is untouched by a recovery request. -/
theorem cap_requestRecovery (pid : ℕ) (s : SimState) :
    (requestRecovery pid s).theater.capacity = s.theater.capacity := by
  rw [requestRecovery]
  split <;> rfl

/-- The theater capacity is untouched by a recovery release. -/
theorem cap_releaseRecovery (s : SimState) :
    (releaseRecovery s).theater.capacity = s.theater.capacity := by
  cases hw : s.recovery.waiting <;>
    simp [releaseRecovery, hw, schedule, pushTrace]

/-- The theater capacity is untouched by a generator wake-up. -/
theorem cap_handleGenTick (sp : Option (ℕ × ℤ)) (n : ℕ) (s : SimState) :
    (handleGenTick sp n s).theater.capacity = s.theater.capacity := by
  simp only [handleGenTick, startPatient]
  cases sp with
  | none => rfl
  | some ppr =>
    rw [cap_requestPrep]
    rfl

/-- The theater capacity is untouched by the end of a preparation. -/
theorem cap_handlePrepDone (pid : ℕ) (s : SimState) :
    (handlePrepDone pid s).theater.capacity = s.theater.capacity := by
  rw [handlePrepDone, cap_requestTheater, theater_releasePrep]

/-- The theater capacity is untouched by the end of an operation. -/
theorem cap_handleOpDone (pid : ℕ) (s : SimState) :
    (handleOpDone pid s).theater.capacity = s.theater.capacity := by
  rw [handleOpDone]
  simp only
  rw [cap_requestRecovery, thcap_pushTrace, cap_releaseTheater, thcap_pushTrace]
  split <;> rfl

/-- The theater capacity is untouched by the end of a recovery. -/
theorem cap_handleRecDone (pid : ℕ) (s : SimState) :
    (handleRecDone pid s).theater.capacity = s.theater.capacity := by
  rw [handleRecDone, cap_releaseRecovery, thcap_pushTrace]

/-- The theater capacity is untouched by one scheduler step. -/
theorem cap_step (s : SimState) :
    (step s).theater.capacity = s.theater.capacity := by
  cases hev : s.events with
  | nil => rw [step_nil s hev]
  | cons hd rest =>
    obtain ⟨t, e, a⟩ := hd
    by_cases hlt : t < s.duration
    · rw [step_head s t e a rest hev hlt]
      cases a with
      | genTick sp n =>
        simp only [exec]
        rw [cap_handleGenTick]
      | prepDone pid =>
        simp only [exec]
        rw [cap_handlePrepDone]
      | opDone pid =>
        simp only [exec]
        rw [cap_handleOpDone]
      | recDone pid =>
        simp only [exec]
        rw [cap_handleRecDone]
    · rw [step_horizon s t e a rest hev hlt]

/-- Every invariant of the development holds at every state the scheduler
reaches from the initial state, for nonnegative input streams: occupancy,
token accounting, completion records, blocking counts, the two trace
pairings, event-queue order, clock bounds, the busy-start pairing, stream
nonnegativity and the literal theater capacity 1. -/
theorem runSim_invariants (cfg : Cfg) (str : Str) (hnn : nnStr str) :
    ∀ fuel, UseInvX (runSim cfg str fuel) 0 0 0
      ∧ TokInv (runSim cfg str fuel)
      ∧ OpCInv (runSim cfg str fuel)
      ∧ CntOK (runSim cfg str fuel)
      ∧ C2TraceOK (runSim cfg str fuel)
      ∧ EvSorted (runSim cfg str fuel)
      ∧ EvTimeLB (runSim cfg str fuel)
      ∧ ThPair (runSim cfg str fuel)
      ∧ C4TraceOK (runSim cfg str fuel)
      ∧ NN (runSim cfg str fuel)
      ∧ (runSim cfg str fuel).theater.capacity = 1 := by
  intro fuel
  induction fuel with
  | zero =>
    refine ⟨?_, ?_, ?_, ?_, ?_, ?_, ?_, ?_, ?_, ?_, ?_⟩
    · refine ⟨?_, ?_, ?_, ?_, ?_, ?_⟩ <;>
        simp [runSim, initState, isPrepEvAny, isOpEvAny, isRecEvAny]
    · refine ⟨none, 0, ?_, ?_, ?_, ?_⟩
      · rfl
      · intro ev hev hg
        simp [runSim, initState] at hev
        subst hev
        rfl
      · intro p pr hsp
        simp at hsp
      · intro pid
        simp [runSim, initState, tokSum, cDis, isSpawnOf, isPrepEvOf,
          isOpEvOf, isRecEvOf, isDisOf]
    · intro pid
      simp [runSim, initState, cOpC, recTok, cDis, isRecEvOf]
    · intro pid
      simp [runSim, initState, cBlock, cSatOpC]
    · intro pid t hm
      simp [runSim, initState] at hm
    · simp [runSim, initState, EvSorted]
    · intro ev hev
      simp [runSim, initState] at hev
      simp [runSim, initState, hev]
    · intro t' e' q hm
      simp [runSim, initState] at hm
    · intro pid b t v hm
      simp [runSim, initState] at hm
    · exact ⟨hnn.1, hnn.2.1, hnn.2.2.1, hnn.2.2.2⟩
    · rfl
  | succ n ih =>
    obtain ⟨hu, htok, hopc, hcnt, hc2, hsort, hlb, hth, hc4, hnn2, hcap⟩ := ih
    refine ⟨useInv_step _ hu, tokInv_step _ htok, opCInv_step _ hopc,
      cntOK_step _ hcnt, c2TraceOK_step _ hc2, sorted_step _ hsort,
      evTimeLB_step _ hlb hsort hnn2, thPair_step _ hth hu hcap hlb,
      c4TraceOK_step _ hc4 hth hlb, nn_step _ hnn2, ?_⟩
    show (step (runSim cfg str n)).theater.capacity = 1
    rw [cap_step]
    exact hcap

/-- Occupancy with no slack holds at every reachable state. -/
theorem useInvX_run (cfg : Cfg) (str : Str) (fuel : ℕ) :
    UseInvX (runSim cfg str fuel) 0 0 0 := by
  induction fuel with
  | zero =>
    refine ⟨?_, ?_, ?_, ?_, ?_, ?_⟩ <;>
      simp [runSim, initState, isPrepEvAny, isOpEvAny, isRecEvAny]
  | succ n ih => exact useInv_step _ ih

/-- The token invariant holds at every reachable state. -/
theorem tokInv_run (cfg : Cfg) (str : Str) (fuel : ℕ) :
    TokInv (runSim cfg str fuel) := by
  induction fuel with
  | zero =>
    refine ⟨none, 0, ?_, ?_, ?_, ?_⟩
    · rfl
    · intro ev hev hg
      simp [runSim, initState] at hev
      subst hev
      rfl
    · intro p pr hsp
      simp at hsp
    · intro pid
      simp [runSim, initState, tokSum, cDis, isSpawnOf, isPrepEvOf,
        isOpEvOf, isRecEvOf, isDisOf]
  | succ n ih => exact tokInv_step _ ih

/-- The completion-record invariant holds at every reachable state. -/
theorem opCInv_run (cfg : Cfg) (str : Str) (fuel : ℕ) :
    OpCInv (runSim cfg str fuel) := by
  induction fuel with
  | zero =>
    intro pid
    simp [runSim, initState, cOpC, recTok, cDis, isRecEvOf]
  | succ n ih => exact opCInv_step _ ih

/-- The blocking-count equality holds at every reachable state. -/
theorem cntOK_run (cfg : Cfg) (str : Str) (fuel : ℕ) :
    CntOK (runSim cfg str fuel) := by
  induction fuel with
  | zero =>
    intro pid
    simp [runSim, initState, cBlock, cSatOpC]
  | succ n ih => exact cntOK_step _ ih

/-- The release-pairing trace property holds at every reachable state. -/
theorem c2_run (cfg : Cfg) (str : Str) (fuel : ℕ) :
    C2TraceOK (runSim cfg str fuel) := by
  induction fuel with
  | zero =>
    intro pid t hm
    simp [runSim, initState] at hm
  | succ n ih => exact c2TraceOK_step _ ih

/-- The recovery-side places of a patient are among its pipeline places. -/
theorem recTok_le_tokSum (q : ℕ) (s : SimState) : recTok q s ≤ tokSum q s := by
  rw [recTok, tokSum]
  omega

/-- A preparation request keeps every pending event pending. -/
theorem evSuper_requestPrep (pid : ℕ) (prio : ℤ) (x : ℚ × ℕ × Act)
    (s : SimState) (hx : x ∈ s.events) : x ∈ (requestPrep pid prio s).events := by
  rw [requestPrep]
  split
  · exact mem_insertEv.mpr (Or.inr hx)
  · exact hx

/-- Claim C8: in every reachable state of every replication, each of the
three pools has a nonnegative in-use count that never exceeds its
capacity. -/
theorem claim_C8_pool_bounds (cfg : Cfg) (str : Str) (fuel : ℕ) :
    (0 ≤ (runSim cfg str fuel).prep.in_use
        ∧ (runSim cfg str fuel).prep.in_use
            ≤ ((runSim cfg str fuel).prep.capacity : ℤ))
      ∧ (0 ≤ (runSim cfg str fuel).theater.in_use
        ∧ (runSim cfg str fuel).theater.in_use
            ≤ ((runSim cfg str fuel).theater.capacity : ℤ))
      ∧ (0 ≤ (runSim cfg str fuel).recovery.in_use
        ∧ (runSim cfg str fuel).recovery.in_use
            ≤ ((runSim cfg str fuel).recovery.capacity : ℤ)) := by
  obtain ⟨h1, h2, h3, h4, h5, h6⟩ := useInvX_run cfg str fuel
  exact ⟨⟨by omega, h4⟩, ⟨by omega, h5⟩, ⟨by omega, h6⟩⟩

/-- Claim C1 (amended): in every reachable state of every replication, the
number of blocking intervals recorded for a patient equals the number of
its operation completions at which the recovery waiting queue was
non-empty (the condition len(recovery.queue) >= 1 of the code), and each
patient completes at most one operation. -/
theorem claim_C1_blocking_characterization (cfg : Cfg) (str : Str)
    (fuel pid : ℕ) :
    cBlock pid (runSim cfg str fuel).trace
        = cSatOpC pid (runSim cfg str fuel).trace
      ∧ cOpC pid (runSim cfg str fuel).trace ≤ 1 := by
  obtain ⟨sp, N, hgc, hpay, hlink, htok⟩ := tokInv_run cfg str fuel
  refine ⟨cntOK_run cfg str fuel pid, ?_⟩
  have h1 := opCInv_run cfg str fuel pid
  have h2 := htok pid
  have h3 := recTok_le_tokSum pid (runSim cfg str fuel)
  by_cases hp : pid < N
  · rw [if_pos hp] at h2
    omega
  · rw [if_neg hp] at h2
    omega

/-- Claim C2 (amended): whenever a theater release is recorded for a
patient at some instant, that patient also records its operation completion
and its recovery request at that same instant: the theater is released at
service completion, before the recovery wait, never held past it. -/
theorem claim_C2_release_at_completion (cfg : Cfg) (str : Str) (fuel : ℕ)
    (pid : ℕ) (t : ℚ)
    (hmem : TraceEv.theaterRelease pid t ∈ (runSim cfg str fuel).trace) :
    (∃ iu ql, TraceEv.opComplete pid t iu ql ∈ (runSim cfg str fuel).trace)
      ∧ TraceEv.recoveryRequest pid t ∈ (runSim cfg str fuel).trace :=
  c2_run cfg str fuel pid t hmem

/-- Witness for claim C2: patient 1 of replication A releases the theater
at instant 11/2, where its completion and recovery request are recorded. -/
theorem claim_C2_witness :
    TraceEv.theaterRelease 1 (11/2) ∈ runA.trace
      ∧ ((∃ iu ql, TraceEv.opComplete 1 (11/2) iu ql ∈ runA.trace)
        ∧ TraceEv.recoveryRequest 1 (11/2) ∈ runA.trace) :=
  ⟨by decide, claim_C2_release_at_completion cfgA strA 20 1 (11/2) (by decide)⟩

/-- Claim C4 (amended): every recorded blocking interval of a replication
with nonnegative input streams stores the theater-entry instant of its
patient, the completion instant, and their difference, the whole
nonnegative operation service duration, and it is paired with an operation
completion at which the recovery waiting queue was non-empty. -/
theorem claim_C4_blocked_value (cfg : Cfg) (str : Str) (hnn : nnStr str)
    (fuel : ℕ) (pid : ℕ) (b t v : ℚ)
    (hmem : TraceEv.blockAppend pid b t v ∈ (runSim cfg str fuel).trace) :
    v = t - b ∧ 0 ≤ v
      ∧ TraceEv.opStart pid b ∈ (runSim cfg str fuel).trace
      ∧ ∃ iu ql, TraceEv.opComplete pid t iu ql ∈ (runSim cfg str fuel).trace
          ∧ 1 ≤ ql :=
  (runSim_invariants cfg str hnn fuel).2.2.2.2.2.2.2.2.1 pid b t v hmem

/-- Witness for claim C4: the blocking interval of patient 2 of replication
A starts at its theater entry 6, is appended at its completion 8, and
stores the service duration 2. -/
theorem claim_C4_witness :
    nnStr strA
      ∧ TraceEv.blockAppend 2 6 8 2 ∈ runA.trace
      ∧ ((2 : ℚ) = 8 - 6 ∧ (0 : ℚ) ≤ 2
        ∧ TraceEv.opStart 2 6 ∈ runA.trace
        ∧ ∃ iu ql, TraceEv.opComplete 2 8 iu ql ∈ runA.trace ∧ 1 ≤ ql) :=
  ⟨by norm_num [nnStr, nnQ, strA], by decide,
    claim_C4_blocked_value cfgA strA (by norm_num [nnStr, nnQ, strA]) 20 2 6 8 2
      (by decide)⟩

/-- Claim C7 (amended): when the generator wake-up carrying a pending spawn
is processed, the spawned patient arrives carrying the priority decided at
the previous wake-up, while the priority of the next patient is decided at
this instant, before the next interarrival wait is scheduled. -/
theorem claim_C7_priority_decided_at_wakeup (s : SimState) (t : ℚ) (e : ℕ)
    (p : ℕ) (pr : ℤ) (n : ℕ) (rest : List (ℚ × ℕ × Act))
    (hev : s.events = (t, e, Act.genTick (some (p, pr)) n) :: rest)
    (hlt : t < s.duration) :
    TraceEv.arrival p pr t ∈ (step s).trace
      ∧ (t + (draw s.ia).1, s.nextEid,
          Act.genTick (some (n, genPrio { s with now := t, events := rest }))
            (n + 1))
        ∈ (step s).events := by
  rw [step_head s t e _ rest hev hlt]
  simp only [exec, handleGenTick, startPatient]
  constructor
  · apply traceSub_requestPrep
    rw [traceMem_pushTrace]
    exact Or.inr rfl
  · apply evSuper_requestPrep
    exact mem_insertEv.mpr (Or.inl rfl)

/-- Witness for claim C7: in the priority replication, patient 0 arrives at
15, after the warm-up 10, yet with the general priority 1 decided at time
0, while the emergency priority 0 of patient 1, drawn at instant 15, is
attached to the next wake-up. -/
theorem claim_C7_witness :
    (runSim cfg7 str7 1).events = [(15, 1, Act.genTick (some (0, 1)) 1)]
      ∧ (15 : ℚ) < (runSim cfg7 str7 1).duration
      ∧ TraceEv.arrival 0 1 15 ∈ (step (runSim cfg7 str7 1)).trace
      ∧ (65, 2, Act.genTick (some (1, 0)) 2)
          ∈ (step (runSim cfg7 str7 1)).events := by
  have h := claim_C7_priority_decided_at_wakeup (runSim cfg7 str7 1) 15 1 0 1 1 []
    (by decide) (by decide)
  exact ⟨by decide, by decide, h.1, h.2⟩

end HospitalSim
